import Mathlib

/-!
Verification development for the Ariadne music-exploration engine
(src/Ariadne.py).  The relational metadata store behind AriadneDB is
abstracted as the full result sets of the SQL queries the class issues;
everything downstream of those queries (entity model, thread strategies,
controller, backend/session layer) is translated function by function.
Python object identity and in-place mutation (Knot.id assignment,
Thread.id assignment, aliased appends of the same object) are modelled
with explicit arenas: an address is an index into a heap list, and the
backend state carries the two heaps.
-/

namespace Ariadne

/-- Artist row of the metadata store: gid, display name, and the name of
its artist type (the code tests artist.type.name against Group/Person). -/
structure Artist where
  gid : String
  name : String
  typeName : String
deriving DecidableEq, Repr

instance : Inhabited Artist := ⟨⟨"", "", ""⟩⟩

/-- Recording row: gid and display name. -/
structure Recording where
  gid : String
  name : String
deriving DecidableEq, Repr

instance : Inhabited Recording := ⟨⟨"", ""⟩⟩

/-- Event row; typeName is optional because an event row's type can be NULL
(the code guards with l.entity1.type and ...). -/
structure Event where
  gid : String
  name : String
  typeName : Option String
deriving DecidableEq, Repr

/-- The select argument of AriadneDB.queryDB: the strings ALL and FIRST, or
an integer limit. -/
inductive Select where
  | all
  | first
  | lim (n : Nat)
deriving DecidableEq, Repr

/-- AriadneDB.queryDB applied to the full result set of a query.  FIRST is
modelled as taking the first row; the only caller that uses FIRST through a
list result (artistHasRecordings) only tests emptiness, which agrees with
query.first() returning None exactly when the result set is empty. -/
def querySel (rows : List α) : Select → List α
  | .all => rows
  | .first => rows.take 1
  | .lim n => rows.take n

/-- Model of AriadneDB.  Each field is the full (unlimited) result set of
one of the SQL queries issued by the class, as a function of the query's
filter arguments; queryDB limits are applied on top by the methods below.
eventPartFuel bounds the part-of chain walked by getLargestEventByPart
(the python while loop assumes that chain is finite). -/
structure AriadneDB where
  recordingsByArtistQ : Artist → List Recording
  artistsByRecordingQ : Recording → List Artist
  membersByGroupQ : Artist → List Artist
  groupsByMemberQ : Artist → List Artist
  performsAsQ : Artist → List Artist
  personBehindActQ : Artist → Option Artist
  recordingByGIDQ : String → Option Recording
  artistEventLinksQ : Artist → List Event
  artistsByEventQ : Event → List Artist
  eventByPartQ : Event → Option Event
  eventPartFuel : Nat

/-- AriadneDB.isGroup: artist.type.name == Group. -/
def AriadneDB.isGroup (_db : AriadneDB) (a : Artist) : Bool :=
  a.typeName == "Group"

/-- AriadneDB.isPerson: artist.type.name == Person. -/
def AriadneDB.isPerson (_db : AriadneDB) (a : Artist) : Bool :=
  a.typeName == "Person"

/-- AriadneDB.getPersonBySinglePersonAct: first is-person link into the act. -/
def AriadneDB.getPersonBySinglePersonAct (db : AriadneDB) (act : Artist) :
    Option Artist :=
  db.personBehindActQ act

/-- AriadneDB.isSinglePersonAct: truthiness of getPersonBySinglePersonAct. -/
def AriadneDB.isSinglePersonAct (db : AriadneDB) (a : Artist) : Bool :=
  (db.getPersonBySinglePersonAct a).isSome

/-- AriadneDB.getRecordingsByArtist. -/
def AriadneDB.getRecordingsByArtist (db : AriadneDB) (a : Artist)
    (sel : Select) : List Recording :=
  querySel (db.recordingsByArtistQ a) sel

/-- AriadneDB.getArtistsByRecording. -/
def AriadneDB.getArtistsByRecording (db : AriadneDB) (r : Recording)
    (sel : Select) : List Artist :=
  querySel (db.artistsByRecordingQ r) sel

/-- AriadneDB.artistHasRecordings. -/
def AriadneDB.artistHasRecordings (db : AriadneDB) (a : Artist) : Bool :=
  !(db.getRecordingsByArtist a .first).isEmpty

/-- AriadneDB.getMembersByGroup. -/
def AriadneDB.getMembersByGroup (db : AriadneDB) (g : Artist)
    (sel : Select) : List Artist :=
  querySel (db.membersByGroupQ g) sel

/-- AriadneDB.getGroupsByMember. -/
def AriadneDB.getGroupsByMember (db : AriadneDB) (m : Artist)
    (sel : Select) : List Artist :=
  querySel (db.groupsByMemberQ m) sel

/-- AriadneDB.getArtistsPersonPerformsAs. -/
def AriadneDB.getArtistsPersonPerformsAs (db : AriadneDB) (p : Artist)
    (sel : Select) : List Artist :=
  querySel (db.performsAsQ p) sel

/-- AriadneDB.getRecordingByGID. -/
def AriadneDB.getRecordingByGID (db : AriadneDB) (gid : String) :
    Option Recording :=
  db.recordingByGIDQ gid

/-- AriadneDB.getGroupsWithMembersInCommon: member-group pairs of other
groups sharing a member, excluding the starting group by gid. -/
def AriadneDB.getGroupsWithMembersInCommon (db : AriadneDB)
    (fromGroup : Artist) : List (Artist × Artist) :=
  (db.getMembersByGroup fromGroup .all).flatMap fun member =>
    ((db.getGroupsByMember member .all).filter
      (fun g => g.gid ≠ fromGroup.gid)).map fun g => (member, g)

/-- AriadneDB.getMembersSoloActsByGroup: member-performsAs pairs, adding the
member under their own name when they have recordings of their own. -/
def AriadneDB.getMembersSoloActsByGroup (db : AriadneDB)
    (fromGroup : Artist) : List (Artist × Artist) :=
  (db.getMembersByGroup fromGroup .all).flatMap fun member =>
    ((db.getArtistsPersonPerformsAs member .all).map fun a => (member, a))
      ++ (if db.artistHasRecordings member then [(member, member)] else [])

/-- AriadneDB.getEventsByArtist, translated literally: the per-type loop
fills events only when eventTypeNames is non-empty, and the fallback branch
requires events to be non-empty AND eventTypeNames to be empty at once. -/
def AriadneDB.getEventsByArtist (db : AriadneDB) (fromArtist : Artist)
    (sel : Select) (eventTypeNames : List String) : List Event :=
  let artistEventLinks := querySel (db.artistEventLinksQ fromArtist) sel
  let events := eventTypeNames.foldl
    (fun acc tn => acc ++ artistEventLinks.filter (fun e => e.typeName == some tn)) []
  if !events.isEmpty && eventTypeNames.isEmpty then artistEventLinks else events

/-- AriadneDB.getArtistsByEvent. -/
def AriadneDB.getArtistsByEvent (db : AriadneDB) (e : Event)
    (sel : Select) : List Artist :=
  querySel (db.artistsByEventQ e) sel

/-- Fuel-bounded version of the while loop in getLargestEventByPart. -/
def AriadneDB.largestEventAux (db : AriadneDB) : Nat → Event → Event
  | 0, e => e
  | fuel + 1, e =>
    match db.eventByPartQ e with
    | none => e
    | some larger => db.largestEventAux fuel larger

/-- AriadneDB.getLargestEventByPart: climb part-of links to the top event. -/
def AriadneDB.getLargestEventByPart (db : AriadneDB) (e : Event) : Event :=
  db.largestEventAux db.eventPartFuel e

/-- A Knot object: wraps a Recording and its credited artists, the inbound
Thread (address) and previous Knot (address) that led to it, and the lazily
assigned integer id (-1 until assigned).  Addresses are indices into the
arenas held by the backend state.  The recording field is the python
attribute named rec (rec is reserved in Lean). -/
structure KnotObj where
  recording : Recording
  creditedArtists : List Artist
  inThread : Option Nat
  prevKnot : Option Nat
  id : Int
deriving DecidableEq, Repr

instance : Inhabited KnotObj := ⟨⟨default, [], none, none, -1⟩⟩

/-- The strategy-specific payload of each Thread subclass. -/
inductive ThreadEvidence where
  | sameArtist (artist : Artist)
  | groupWithMembersInCommon (fromGroup toGroup member : Artist)
  | groupMemberSoloAct (fromGroup member performsAs : Artist)
  | personIsMemberOf (fromPerson toGroup : Artist) (performsAs : Option Artist)
  | festivalInCommon (fromArtist toArtist : Artist) (festival : Event)
deriving DecidableEq, Repr

/-- A Thread object: a directed edge between two Knot addresses, plus the
evidence fields of its concrete subclass.  id = 0 models the id attribute
not having been set yet (assignThreadIDs only ever assigns ids from 1 up). -/
structure ThreadObj where
  fromKnot : Nat
  toKnot : Nat
  evidence : ThreadEvidence
  id : Nat
deriving DecidableEq, Repr

instance : Inhabited ThreadObj := ⟨⟨0, 0, .sameArtist default, 0⟩⟩

/-- The connecting artist of a ThreadBySameArtist (its .artist attribute);
threads of other subclasses have no such attribute, and the rank code that
reads it is only ever run on lists of same-artist threads. -/
def evidArtist : ThreadEvidence → Artist
  | .sameArtist a => a
  | _ => default

/-- The closed set of Thread subclasses, in definition order
(Thread.__subclasses__() order). -/
inductive ThreadType where
  | sameArtist
  | groupWithMembersInCommon
  | groupMemberSoloAct
  | personIsMemberOf
  | festivalInCommon
deriving DecidableEq, Repr

/-- Dispatch of the per-subclass isApplicable staticmethods. -/
def isApplicable (db : AriadneDB) (tt : ThreadType) (fromKnot : KnotObj) :
    Bool :=
  match tt with
  | .sameArtist => true
  | .groupWithMembersInCommon => fromKnot.creditedArtists.any db.isGroup
  | .groupMemberSoloAct => fromKnot.creditedArtists.any db.isGroup
  | .personIsMemberOf =>
      fromKnot.creditedArtists.any fun a => db.isPerson a || db.isSinglePersonAct a
  | .festivalInCommon => true

/-- What one candidate produced by a getAllPossibleThreads call consists of
before the destination Knot and the Thread objects are allocated: the
destination recording, the evidence of the thread, and whether makeThreads
sets toKnot.inThread back to the new thread (every subclass does except
ThreadByArtistWithFestivalInCommon, whose makeThreads omits that line). -/
structure CandSpec where
  toRec : Recording
  evidence : ThreadEvidence
  linkInThread : Bool
deriving DecidableEq, Repr

/-- ThreadBySameArtist.getAllPossibleThreads as a list of candidate specs:
for each credited artist, up to select recordings by that artist. -/
def discoverSameArtist (db : AriadneDB) (k : KnotObj) (select : Nat) :
    List CandSpec :=
  k.creditedArtists.flatMap fun thisArtist =>
    (db.getRecordingsByArtist thisArtist (.lim select)).map fun toRec =>
      ⟨toRec, .sameArtist thisArtist, true⟩

/-- ThreadByGroupWithMembersInCommon.getAllPossibleThreads as specs. -/
def discoverGroupWithMembersInCommon (db : AriadneDB) (k : KnotObj)
    (select : Nat) : List CandSpec :=
  (k.creditedArtists.filter db.isGroup).flatMap fun fromGroup =>
    (db.getGroupsWithMembersInCommon fromGroup).flatMap fun mg =>
      (db.getRecordingsByArtist mg.2 (.lim select)).map fun toRec =>
        ⟨toRec, .groupWithMembersInCommon fromGroup mg.2 mg.1, true⟩

/-- ThreadByGroupMemberSoloAct.getAllPossibleThreads as specs. -/
def discoverGroupMemberSoloAct (db : AriadneDB) (k : KnotObj)
    (select : Nat) : List CandSpec :=
  (k.creditedArtists.filter db.isGroup).flatMap fun fromGroup =>
    (db.getMembersSoloActsByGroup fromGroup).flatMap fun ma =>
      (db.getRecordingsByArtist ma.2 (.lim select)).map fun toRec =>
        ⟨toRec, .groupMemberSoloAct fromGroup ma.1 ma.2, true⟩

/-- ThreadByGroupPersonIsMemberOf.getAllPossibleThreads as specs.  For a
single-person act the alias is recorded as performsAs, the person behind the
act becomes fromPerson, and the alias's own group memberships are prepended;
the person's memberships are always appended. -/
def discoverPersonIsMemberOf (db : AriadneDB) (k : KnotObj)
    (select : Nat) : List CandSpec :=
  (k.creditedArtists.filter fun a => db.isPerson a || db.isSinglePersonAct a).flatMap
    fun fromArtist =>
      let spa := db.isSinglePersonAct fromArtist
      let mPerformsAs := if spa then some fromArtist else none
      let fromPerson :=
        if spa then (db.getPersonBySinglePersonAct fromArtist).getD fromArtist
        else fromArtist
      let toGroups :=
        (if spa then db.getGroupsByMember fromArtist .all else [])
          ++ db.getGroupsByMember fromPerson .all
      toGroups.flatMap fun toGroup =>
        (db.getRecordingsByArtist toGroup (.lim select)).map fun toRec =>
          ⟨toRec, .personIsMemberOf fromPerson toGroup mPerformsAs, true⟩

/-- ThreadByArtistWithFestivalInCommon.getAllPossibleThreads as specs: for
each credited artist, the festivals they played, the other artists at each
festival (excluding the seed artist), and up to select recordings by each;
the displayed event is the largest enclosing event. -/
def discoverFestivalInCommon (db : AriadneDB) (k : KnotObj)
    (select : Nat) : List CandSpec :=
  k.creditedArtists.flatMap fun fromArtist =>
    (db.getEventsByArtist fromArtist .all ["Festival"]).flatMap fun festival =>
      let majorFestival := db.getLargestEventByPart festival
      ((db.getArtistsByEvent festival .all).filter (fun a => a ≠ fromArtist)).flatMap
        fun festivalArtist =>
          (db.getRecordingsByArtist festivalArtist (.lim select)).map fun toRec =>
            ⟨toRec, .festivalInCommon fromArtist festivalArtist majorFestival, false⟩

/-- Dispatch of getAllPossibleThreads over the subclass tag. -/
def discoverSpecs (db : AriadneDB) (tt : ThreadType) (k : KnotObj)
    (select : Nat) : List CandSpec :=
  match tt with
  | .sameArtist => discoverSameArtist db k select
  | .groupWithMembersInCommon => discoverGroupWithMembersInCommon db k select
  | .groupMemberSoloAct => discoverGroupMemberSoloAct db k select
  | .personIsMemberOf => discoverPersonIsMemberOf db k select
  | .festivalInCommon => discoverFestivalInCommon db k select

/-- np.random.choice(lst, n) for a non-empty list: n draws with replacement.
The draws are modelled by an oracle giving the index of each draw (reduced
modulo the list length); every property proved below holds for every oracle,
which is exactly what holds of the numpy generator.  np.random.choice raises
on an empty input list; the empty case here is only reached through callers
that already guarantee non-emptiness. -/
def pickFrom (oracle : Nat → Nat) (n : Nat) : List α → List α
  | [] => []
  | h :: t =>
    (List.range n).map fun i => (h :: t).getD (oracle i % (h :: t).length) h

/-- The rank staticmethod shared by ThreadByGroupWithMembersInCommon,
ThreadByGroupMemberSoloAct, ThreadByGroupPersonIsMemberOf and
ThreadByArtistWithFestivalInCommon: np.random.choice(threads, nResults),
which raises (none) on an empty input. -/
def rankRandom (oracle : Nat → Nat) (threads : List α) (n : Nat) :
    Option (List α) :=
  match threads with
  | [] => none
  | h :: t => some (pickFrom oracle n (h :: t))

/-- ThreadBySameArtist.rank: group the input by its distinct connecting
artists (np.unique of the artist attributes; the order np.unique produces
is an arbitrary python-2 object ordering, and no property below depends on
it) and draw nResults threads per group.  artistOf reads the artist
attribute of a thread representation. -/
def rankSameArtist (artistOf : α → Artist) (oracle : Nat → Nat → Nat)
    (threads : List α) (n : Nat) : List α :=
  ((threads.map artistOf).dedup).enum.flatMap fun ga =>
    pickFrom (oracle ga.1) n (threads.filter fun t => artistOf t == ga.2)

/-- The per-call random oracle handed to one updateBestThreads call: one
independent draw sequence per (strategy index, group index, draw index). -/
abbrev Oracle := Nat → Nat → Nat → Nat

/-- The session-owning backend state (AriadneBackend plus the controller it
owns).  knotHeap and threadHeap are arenas of all Knot and Thread objects
allocated so far; ctrlKnots, ctrlThreads, currentKnot and bestThreads hold
addresses into them.  bestThreads is none until the first updateBestThreads
call (the python attribute does not exist before then). -/
structure Backend where
  knotHeap : List KnotObj
  threadHeap : List ThreadObj
  ctrlKnots : List Nat
  ctrlThreads : List Nat
  currentKnot : Nat
  bestThreads : Option (List Nat)
  threadCounter : Nat
  knotCounter : Nat
deriving DecidableEq, Repr

/-- Read a Knot object from the arena. -/
def getKnot (b : Backend) (a : Nat) : KnotObj :=
  b.knotHeap.getD a default

/-- Read a Thread object from the arena. -/
def getThread (b : Backend) (t : Nat) : ThreadObj :=
  b.threadHeap.getD t default

/-- Session configuration: the two per-type limits and the allowed Thread
subclasses handed to the controller. -/
structure Config where
  possibleThreadsPerThreadType : Nat
  rankedThreadsPerThreadType : Nat
  allowedThreadTypes : List ThreadType

/-- The backend default allowedThreadTypes: all five subclasses. -/
def allThreadTypes : List ThreadType :=
  [.sameArtist, .groupWithMembersInCommon, .groupMemberSoloAct,
   .personIsMemberOf, .festivalInCommon]

/-- The makeThreads body for one candidate: allocate a fresh destination
Knot (prevKnot = the from Knot, id unassigned) and a fresh Thread to it, and
link toKnot.inThread back to the new thread except for the festival
subclass.  Returns the extended arenas and the new thread address. -/
def makeCandidate (db : AriadneDB) (fromKnotAddr : Nat) (s : CandSpec)
    (kh : List KnotObj) (th : List ThreadObj) :
    List KnotObj × List ThreadObj × Nat :=
  let toCreditedArtists := db.getArtistsByRecording s.toRec .all
  let knotAddr := kh.length
  let threadAddr := th.length
  let toKnot : KnotObj :=
    ⟨s.toRec, toCreditedArtists,
     if s.linkInThread then some threadAddr else none, some fromKnotAddr, -1⟩
  let newThread : ThreadObj := ⟨fromKnotAddr, knotAddr, s.evidence, 0⟩
  (kh ++ [toKnot], th ++ [newThread], threadAddr)

/-- Allocate all candidates of one getAllPossibleThreads call in order,
returning the arenas and the addresses of the new threads. -/
def allocCands (db : AriadneDB) (fromKnotAddr : Nat) :
    List CandSpec → List KnotObj → List ThreadObj →
    List KnotObj × List ThreadObj × List Nat
  | [], kh, th => (kh, th, [])
  | s :: rest, kh, th =>
    let r1 := makeCandidate db fromKnotAddr s kh th
    let r2 := allocCands db fromKnotAddr rest r1.1 r1.2.1
    (r2.1, r2.2.1, r1.2.2 :: r2.2.2)

/-- AriadneController.getAllPossibleThreads: fan discovery out over the
applicable subclasses in order, allocating every candidate's objects, and
pair each subclass with its thread (address) list. -/
def discoverAllAlloc (db : AriadneDB) (select : Nat) (fromKnotAddr : Nat)
    (fromKnot : KnotObj) :
    List ThreadType → List KnotObj → List ThreadObj →
    List KnotObj × List ThreadObj × List (ThreadType × List Nat)
  | [], kh, th => (kh, th, [])
  | tt :: rest, kh, th =>
    let r1 := allocCands db fromKnotAddr (discoverSpecs db tt fromKnot select) kh th
    let r2 := discoverAllAlloc db select fromKnotAddr fromKnot rest r1.1 r1.2.1
    (r2.1, r2.2.1, (tt, r1.2.2) :: r2.2.2)

/-- AriadneController.rank: for each (subclass, threads) pair with a
non-empty thread list, apply that subclass's rank and concatenate.  Thread
addresses are ranked; the artist attribute is read through the arena. -/
def controllerRank (th : List ThreadObj) (oracle : Oracle)
    (pairs : List (ThreadType × List Nat)) (n : Nat) : List Nat :=
  pairs.enum.flatMap fun ip =>
    match ip.2.2, ip.2.1 with
    | [], _ => []
    | a :: rest, .sameArtist =>
      rankSameArtist (fun t => evidArtist (th.getD t default).evidence)
        (oracle ip.1) (a :: rest) n
    | a :: rest, _ => (rankRandom (oracle ip.1 0) (a :: rest) n).getD []

/-- Overwrite only the id attribute of the thread object at one address. -/
def setThreadId (th : List ThreadObj) (addr : Nat) (newId : Nat) :
    List ThreadObj :=
  th.set addr
    ⟨(th.getD addr default).fromKnot, (th.getD addr default).toKnot,
     (th.getD addr default).evidence, newId⟩

/-- AriadneBackend.assignThreadIDs: walk the ranked threads, bumping the
counter before assigning it as each thread's id.  Returns the mutated arena
and the final counter. -/
def assignThreadIDs : List Nat → List ThreadObj → Nat → List ThreadObj × Nat
  | [], th, counter => (th, counter)
  | a :: rest, th, counter =>
    assignThreadIDs rest (setThreadId th a (counter + 1)) (counter + 1)

/-- AriadneBackend.updateBestThreads (and the controller calls it makes):
filter the allowed subclasses by isApplicable at the current Knot, discover
and allocate all candidates, rank them, assign fresh thread ids to the
ranked candidates and cache their addresses, replacing any previous cache. -/
def updateBestThreads (db : AriadneDB) (cfg : Config) (oracle : Oracle)
    (b : Backend) : Backend :=
  let fromKnot := getKnot b b.currentKnot
  let applicable := cfg.allowedThreadTypes.filter fun tt => isApplicable db tt fromKnot
  let r := discoverAllAlloc db cfg.possibleThreadsPerThreadType b.currentKnot
    fromKnot applicable b.knotHeap b.threadHeap
  let ranked := controllerRank r.2.1 oracle r.2.2 cfg.rankedThreadsPerThreadType
  let assigned := assignThreadIDs ranked r.2.1 b.threadCounter
  { b with
    knotHeap := r.1
    threadHeap := assigned.1
    bestThreads := some ranked
    threadCounter := assigned.2 }

/-- The error model: every failure the backend can signal is a plain python
Exception carrying only a message string (raise Exception(...)); the code
defines no typed error kinds.  AttributeError stands for reading the
bestThreads attribute before the first updateBestThreads call. -/
inductive PyErr where
  | genericException (msg : String)
deriving DecidableEq, Repr

instance {ε α : Type} [DecidableEq ε] [DecidableEq α] :
    DecidableEq (Except ε α) := fun x y =>
  match x, y with
  | .ok a, .ok b =>
    if h : a = b then .isTrue (by rw [h])
    else .isFalse (by intro hc; cases hc; exact h rfl)
  | .error e, .error f =>
    if h : e = f then .isTrue (by rw [h])
    else .isFalse (by intro hc; cases hc; exact h rfl)
  | .ok _, .error _ => .isFalse (by intro hc; cases hc)
  | .error _, .ok _ => .isFalse (by intro hc; cases hc)

/-- AriadneBackend.followThread: look the id up in the cached candidate
list; if found, stamp the destination Knot with the current knot counter,
append the thread and its destination to the committed lists, advance the
current Knot and bump the counter.  No comparison of the thread's fromKnot
with the current Knot is made anywhere. -/
def followThread (threadID : Nat) (b : Backend) :
    Except PyErr Backend :=
  match b.bestThreads with
  | none => .error (.genericException "AttributeError: bestThreads")
  | some cached =>
    match cached.find? (fun t => (getThread b t).id == threadID) with
    | none => .error (.genericException "Wrong Thread ID")
    | some t =>
      let thr := getThread b t
      let stamped : KnotObj :=
        ⟨(getKnot b thr.toKnot).recording, (getKnot b thr.toKnot).creditedArtists,
         (getKnot b thr.toKnot).inThread, (getKnot b thr.toKnot).prevKnot,
         (b.knotCounter : Int)⟩
      .ok { b with
            knotHeap := b.knotHeap.set thr.toKnot stamped
            ctrlThreads := b.ctrlThreads ++ [t]
            ctrlKnots := b.ctrlKnots ++ [thr.toKnot]
            currentKnot := thr.toKnot
            knotCounter := b.knotCounter + 1 }

/-- AriadneBackend.moveCurrentKnot: set the current Knot to the first
committed Knot whose id matches, else raise. -/
def moveCurrentKnot (knotID : Int) (b : Backend) : Except PyErr Backend :=
  match b.ctrlKnots.find? (fun a => (getKnot b a).id == knotID) with
  | some a => .ok { b with currentKnot := a }
  | none => .error (.genericException "Bad Knot ID")

/-- AriadneBackend.inputRecording: resolve the recording reference (with
the hard-wired default), raising a generic exception when it is unknown. -/
def inputRecording (db : AriadneDB) (recID : String) :
    Except PyErr Recording :=
  let rid := if recID == "default"
    then "084a24a9-b289-4584-9fb5-1ca0f7500eb3" else recID
  match db.getRecordingByGID rid with
  | some r => .ok r
  | none => .error (.genericException "Wrong MBID")

/-- The state after AriadneBackend.run on a resolved starting recording:
fresh counters from __init__, the controller's start Knot at address 0 with
id 0, no inbound thread and no parent, and the knot counter bumped to 1. -/
def startBackend (db : AriadneDB) (startRec : Recording) : Backend :=
  let startKnot : KnotObj :=
    ⟨startRec, db.getArtistsByRecording startRec .all, none, none, 0⟩
  { knotHeap := [startKnot]
    threadHeap := []
    ctrlKnots := [0]
    ctrlThreads := []
    currentKnot := 0
    bestThreads := none
    threadCounter := 0
    knotCounter := 1 }

/-- AriadneBackend.run: inputRecording then controller construction. -/
def runBackend (db : AriadneDB) (recID : String) : Except PyErr Backend :=
  (inputRecording db recID).map (startBackend db)

/-- The operations a client can drive a started session through. -/
inductive Op where
  | refresh (oracle : Oracle)
  | follow (threadID : Nat)
  | jump (knotID : Int)

/-- One request served by the web server: failing operations raise, the
exception is caught at the route and the backend object survives unchanged
(followThread raises before mutating anything). -/
def stepCaught (db : AriadneDB) (cfg : Config) (b : Backend) : Op → Backend
  | .refresh oracle => updateBestThreads db cfg oracle b
  | .follow threadID =>
    match followThread threadID b with
    | .ok b2 => b2
    | .error _ => b
  | .jump knotID =>
    match moveCurrentKnot knotID b with
    | .ok b2 => b2
    | .error _ => b

/-- A whole session tail: serve the requests in order. -/
def runOps (db : AriadneDB) (cfg : Config) (b : Backend) (ops : List Op) :
    Backend :=
  ops.foldl (stepCaught db cfg) b

/-- Any state a session can be in after starting at startRec and serving
any request sequence. -/
def reach (db : AriadneDB) (cfg : Config) (startRec : Recording)
    (ops : List Op) : Backend :=
  runOps db cfg (startBackend db startRec) ops

/-! Concrete instances used to witness the theorems below: a store with one
person artist credited on two recordings. -/

/-- A concrete person artist. -/
def artistA : Artist := ⟨"a1", "Alice", "Person"⟩

/-- A concrete starting recording, credited to artistA. -/
def recR : Recording := ⟨"r1", "Song R"⟩

/-- A second recording by artistA. -/
def recS : Recording := ⟨"r2", "Song S"⟩

/-- A concrete store: artistA has exactly the recordings recR and recS,
both credited to artistA alone; no groups, aliases or events. -/
def dbC : AriadneDB where
  recordingsByArtistQ := fun a => if a == artistA then [recR, recS] else []
  artistsByRecordingQ := fun r => if r == recR || r == recS then [artistA] else []
  membersByGroupQ := fun _ => []
  groupsByMemberQ := fun _ => []
  performsAsQ := fun _ => []
  personBehindActQ := fun _ => none
  recordingByGIDQ := fun g =>
    if g == "r1" then some recR else if g == "r2" then some recS else none
  artistEventLinksQ := fun _ => []
  artistsByEventQ := fun _ => []
  eventByPartQ := fun _ => none
  eventPartFuel := 0

/-- A session configuration restricted to the SameArtist strategy with both
per-type limits at 2. -/
def cfgC : Config := ⟨2, 2, [.sameArtist]⟩

/-- A session configuration restricted to GroupWithMembersInCommon. -/
def cfgG : Config := ⟨2, 2, [.groupWithMembersInCommon]⟩

/-- The all-zero draw oracle (always picks the first element). -/
def oZ : Oracle := fun _ _ _ => 0

/-- A draw oracle that always picks the second element. -/
def oOne : Oracle := fun _ _ _ => 1

/-- A draw oracle whose i-th draw picks the i-th element. -/
def oIdx : Oracle := fun _ _ i => i

/-- The discovery-and-allocation stage of one updateBestThreads call,
named so the lemmas below can speak about its pieces. -/
def refreshDiscover (db : AriadneDB) (cfg : Config) (b : Backend) :
    List KnotObj × List ThreadObj × List (ThreadType × List Nat) :=
  discoverAllAlloc db cfg.possibleThreadsPerThreadType b.currentKnot
    (getKnot b b.currentKnot)
    (cfg.allowedThreadTypes.filter fun tt =>
      isApplicable db tt (getKnot b b.currentKnot))
    b.knotHeap b.threadHeap

/-- The ranked candidate addresses of one updateBestThreads call. -/
def refreshRanked (db : AriadneDB) (cfg : Config) (oracle : Oracle)
    (b : Backend) : List Nat :=
  controllerRank (refreshDiscover db cfg b).2.1 oracle
    (refreshDiscover db cfg b).2.2 cfg.rankedThreadsPerThreadType

/-- Walk prevKnot pointers from a Knot address; true when the walk ends at
the start Knot (address 0) within the given fuel. -/
def chainToStart (kh : List KnotObj) : Nat → Nat → Bool
  | 0, _ => false
  | fuel + 1, addr =>
    match (kh.getD addr default).prevKnot with
    | none => addr == 0
    | some p => chainToStart kh fuel p

/-- The list of Knot addresses visited by the prevKnot walk. -/
def chainList (kh : List KnotObj) : Nat → Nat → List Nat
  | 0, addr => [addr]
  | fuel + 1, addr =>
    addr ::
      (match (kh.getD addr default).prevKnot with
       | none => []
       | some p => chainList kh fuel p)

/-- CreditedArtists.render: reading artistList[0] of an empty credit list
raises IndexError, otherwise the names are joined with commas and one and. -/
def renderCreditedArtists : List Artist → Except PyErr String
  | [] => .error (.genericException "IndexError: list index out of range")
  | [a] => .ok a.name
  | [a, b] => .ok (a.name ++ " and " ++ b.name)
  | a :: rest =>
    .ok ((rest.dropLast.foldl (fun s x => s ++ ", " ++ x.name) a.name)
      ++ " and " ++ ((rest.getLast?.map Artist.name).getD ""))

/-- The struct produced by Knot.serialize. -/
structure SerializedKnot where
  recName : String
  recGID : String
  creditedArtists : String
  id : Int
deriving DecidableEq, Repr

/-- Knot.serialize for the Knot object at one address. -/
def serializeKnot (b : Backend) (a : Nat) : Except PyErr SerializedKnot :=
  (renderCreditedArtists (getKnot b a).creditedArtists).map fun s =>
    ⟨(getKnot b a).recording.name, (getKnot b a).recording.gid, s, (getKnot b a).id⟩

/-- Serialize a list of Knot addresses in order, raising at the first
failure, as the list comprehension in the route does. -/
def serializeKnots (b : Backend) : List Nat → Except PyErr (List SerializedKnot)
  | [] => .ok []
  | a :: rest =>
    match serializeKnot b a with
    | .error e => .error e
    | .ok s =>
      match serializeKnots b rest with
      | .error e => .error e
      | .ok l => .ok (s :: l)

/-- The get-visited-knots route: serialize every committed Knot in order. -/
def listVisitedKnots (b : Backend) : Except PyErr (List SerializedKnot) :=
  serializeKnots b b.ctrlKnots

/-- The internal well-formedness of a backend state, preserved by every
request.  Because each discovered candidate allocates its Thread and its
destination Knot in lockstep (and address 0 is the start Knot allocated
before any thread), thread t always points at knot t + 1; that is the
formal shape of destination Knots being brand new, never re-linked. -/
structure Inv (b : Backend) : Prop where
  hlen : b.knotHeap.length = b.threadHeap.length + 1
  htoKnot : ∀ t, t < b.threadHeap.length → (getThread b t).toKnot = t + 1
  hprev0 : (getKnot b 0).prevKnot = none
  hprevLt : ∀ a, 0 < a → a < b.knotHeap.length →
    ∃ p, (getKnot b a).prevKnot = some p ∧ p < a
  hknots : ∀ a ∈ b.ctrlKnots, a < b.knotHeap.length
  hthreads : ∀ t ∈ b.ctrlThreads, t < b.threadHeap.length
  hcur : b.currentKnot ∈ b.ctrlKnots
  hstart : 0 ∈ b.ctrlKnots
  hbest : ∀ l, b.bestThreads = some l → ∀ t ∈ l, t < b.threadHeap.length
  hinbound : ∀ a ∈ b.ctrlKnots, a ≠ 0 → a - 1 ∈ b.ctrlThreads
  houtbound : ∀ t ∈ b.ctrlThreads, t + 1 ∈ b.ctrlKnots
  hknotIds : ∀ a, a < b.knotHeap.length → (getKnot b a).id < (b.knotCounter : Int)
  hthreadIds : ∀ t, t < b.threadHeap.length → (getThread b t).id ≤ b.threadCounter

/-! List helper lemmas. -/

theorem getD_mem_of_lt {l : List α} (d : α) {i : Nat} (h : i < l.length) :
    l.getD i d ∈ l := by
  rw [List.getD_eq_getElem l d h]
  exact List.getElem_mem h

theorem getD_mem_of_default_mem {l : List α} {d : α} (hd : d ∈ l) (i : Nat) :
    l.getD i d ∈ l := by
  rcases Nat.lt_or_ge i l.length with h | h
  · exact getD_mem_of_lt d h
  · rw [List.getD_eq_default l d h]; exact hd

theorem getD_append_lt (l1 l2 : List α) (d : α) {i : Nat}
    (h : i < l1.length) : (l1 ++ l2).getD i d = l1.getD i d := by
  simp [List.getD_eq_getElem?_getD, List.getElem?_append_left h]

theorem getD_append_ge (l1 l2 : List α) (d : α) {i : Nat}
    (h : l1.length ≤ i) : (l1 ++ l2).getD i d = l2.getD (i - l1.length) d := by
  simp [List.getD_eq_getElem?_getD, List.getElem?_append_right h]

theorem getD_set_self (l : List α) {i : Nat} (x d : α) (h : i < l.length) :
    (l.set i x).getD i d = x := by
  simp [List.getD_eq_getElem?_getD, List.getElem?_set_self, h]

theorem getD_set_ne (l : List α) {i j : Nat} (x d : α) (h : i ≠ j) :
    (l.set i x).getD j d = l.getD j d := by
  simp [List.getD_eq_getElem?_getD, List.getElem?_set_ne h]

/-- A Nodup list with a unique member satisfying p filters to length one. -/
theorem filter_length_one {l : List α} {p : α → Bool} {x : α}
    (hnd : l.Nodup) (hx : x ∈ l) (hpx : p x = true)
    (huniq : ∀ y ∈ l, p y = true → y = x) :
    (l.filter p).length = 1 := by
  induction l with
  | nil => cases hx
  | cons h t ih =>
    rcases List.nodup_cons.mp hnd with ⟨hh, ht⟩
    rcases List.mem_cons.mp hx with rfl | hxt
    · have htnone : t.filter p = [] := by
        apply List.filter_eq_nil_iff.mpr
        intro y hy
        by_contra hc
        have : y = x := huniq y (List.mem_cons_of_mem _ hy) (by simpa using hc)
        exact hh (this ▸ hy)
      simp [List.filter_cons, hpx, htnone]
    · have hph : p h = false := by
        by_contra hc
        have : h = x := huniq h (List.mem_cons_self h t) (by simpa using hc)
        exact hh (this ▸ hxt)
      have := ih ht hxt fun y hy hpy => huniq y (List.mem_cons_of_mem _ hy) hpy
      simp [List.filter_cons, hph, this]

theorem snd_mem_of_mem_enum {l : List α} {p : Nat × α} (h : p ∈ l.enum) :
    p.2 ∈ l :=
  List.snd_mem_of_mem_enumFrom h

/-! pickFrom and rank lemmas. -/

theorem pickFrom_subset (oracle : Nat → Nat) (n : Nat) (l : List α) :
    ∀ x ∈ pickFrom oracle n l, x ∈ l := by
  cases l with
  | nil => simp [pickFrom]
  | cons h t =>
    intro x hx
    simp only [pickFrom, List.mem_map] at hx
    obtain ⟨i, _, rfl⟩ := hx
    exact getD_mem_of_default_mem (List.mem_cons_self h t) _

theorem pickFrom_length_le (oracle : Nat → Nat) (n : Nat) (l : List α) :
    (pickFrom oracle n l).length ≤ n := by
  cases l with
  | nil => simp [pickFrom]
  | cons h t => simp [pickFrom]

theorem pickFrom_length (oracle : Nat → Nat) (n : Nat) (l : List α)
    (h : l ≠ []) : (pickFrom oracle n l).length = n := by
  cases l with
  | nil => exact absurd rfl h
  | cons a t => simp [pickFrom]

theorem rankRandom_spec (oracle : Nat → Nat) (threads : List α) (n : Nat)
    (r : List α) (h : rankRandom oracle threads n = some r) :
    (∀ x ∈ r, x ∈ threads) ∧ r.length = n := by
  cases threads with
  | nil => simp [rankRandom] at h
  | cons a t =>
    simp only [rankRandom, Option.some.injEq] at h
    subst h
    exact ⟨pickFrom_subset _ _ _, pickFrom_length _ _ _ (by simp)⟩

theorem rankSameArtist_subset (artistOf : α → Artist)
    (oracle : Nat → Nat → Nat) (threads : List α) (n : Nat) :
    ∀ x ∈ rankSameArtist artistOf oracle threads n, x ∈ threads := by
  intro x hx
  simp only [rankSameArtist, List.mem_flatMap] at hx
  obtain ⟨ga, _, hpick⟩ := hx
  exact List.mem_of_mem_filter (pickFrom_subset _ _ _ x hpick)

/-- Every thread drawn for the group of artist a2 carries artist a2. -/
theorem pickFrom_group_artist (artistOf : α → Artist)
    (oracle : Nat → Nat) (threads : List α) (n : Nat) (a2 : Artist) :
    ∀ x ∈ pickFrom oracle n (threads.filter fun t => artistOf t == a2),
      artistOf x = a2 := by
  intro x hx
  have := List.of_mem_filter (pickFrom_subset _ _ _ x hx)
  exact eq_of_beq this

/-- Core counting lemma for ThreadBySameArtist.rank: provided the group
labels are pairwise distinct, at most n of the concatenated draws carry any
one artist. -/
theorem flatMap_groups_count_le (artistOf : α → Artist)
    (oracle : Nat → Nat → Nat) (threads : List α) (n : Nat) (a : Artist) :
    ∀ (l : List (Nat × Artist)), (l.map Prod.snd).Nodup →
      ((l.flatMap fun ga =>
          pickFrom (oracle ga.1) n (threads.filter fun t => artistOf t == ga.2)).filter
        (fun t => artistOf t == a)).length ≤ n := by
  intro l
  induction l with
  | nil => intro _; simp
  | cons ga rest ih =>
    intro hnd
    rw [List.map_cons] at hnd
    rcases List.nodup_cons.mp hnd with ⟨hnotin, hndrest⟩
    rw [List.flatMap_cons, List.filter_append, List.length_append]
    by_cases hga : ga.2 = a
    · have hrest : ((rest.flatMap fun gb =>
          pickFrom (oracle gb.1) n (threads.filter fun t => artistOf t == gb.2)).filter
            (fun t => artistOf t == a)).length = 0 := by
        rw [List.length_eq_zero]
        apply List.filter_eq_nil_iff.mpr
        intro x hx
        simp only [List.mem_flatMap] at hx
        obtain ⟨gb, hgb, hpick⟩ := hx
        have hxa : artistOf x = gb.2 := pickFrom_group_artist _ _ _ _ _ x hpick
        have : gb.2 ≠ a := by
          intro hEq
          apply hnotin
          rw [hga, ← hEq]
          exact List.mem_map_of_mem Prod.snd hgb
        simp [hxa]
        exact fun hc => this (by simp [hc])
      calc ((pickFrom (oracle ga.1) n (threads.filter fun t => artistOf t == ga.2)).filter
              (fun t => artistOf t == a)).length
            + ((rest.flatMap fun gb =>
                pickFrom (oracle gb.1) n (threads.filter fun t => artistOf t == gb.2)).filter
              (fun t => artistOf t == a)).length
          ≤ (pickFrom (oracle ga.1) n (threads.filter fun t => artistOf t == ga.2)).length + 0 := by
              apply Nat.add_le_add (List.length_filter_le _ _) (Nat.le_of_eq hrest)
        _ ≤ n := by simpa using pickFrom_length_le (oracle ga.1) n _
    · have hhead : ((pickFrom (oracle ga.1) n (threads.filter fun t => artistOf t == ga.2)).filter
          (fun t => artistOf t == a)).length = 0 := by
        rw [List.length_eq_zero]
        apply List.filter_eq_nil_iff.mpr
        intro x hx
        have hxa : artistOf x = ga.2 := pickFrom_group_artist _ _ _ _ _ x hx
        simp [hxa]
        exact fun hc => hga (by simp [hc])
      rw [hhead, Nat.zero_add]
      exact ih hndrest

/-- ThreadBySameArtist.rank returns at most n threads per distinct
connecting artist. -/
theorem rankSameArtist_count_le (artistOf : α → Artist)
    (oracle : Nat → Nat → Nat) (threads : List α) (n : Nat) (a : Artist) :
    ((rankSameArtist artistOf oracle threads n).filter
      (fun t => artistOf t == a)).length ≤ n := by
  unfold rankSameArtist
  apply flatMap_groups_count_le
  rw [List.enum_map_snd]
  exact List.nodup_dedup _

/-! Allocation lemmas: how one discovery pass extends the arenas. -/

theorem allocCands_len (db : AriadneDB) (fromAddr : Nat) :
    ∀ (specs : List CandSpec) (kh : List KnotObj) (th : List ThreadObj),
      (allocCands db fromAddr specs kh th).1.length = kh.length + specs.length ∧
      (allocCands db fromAddr specs kh th).2.1.length = th.length + specs.length := by
  intro specs
  induction specs with
  | nil => intro kh th; simp [allocCands]
  | cons s rest ih =>
    intro kh th
    simp only [allocCands, makeCandidate]
    constructor
    · rw [(ih _ _).1]; simp; omega
    · rw [(ih _ _).2]; simp; omega

theorem allocCands_keepOld (db : AriadneDB) (fromAddr : Nat) :
    ∀ (specs : List CandSpec) (kh : List KnotObj) (th : List ThreadObj),
      (∀ a, a < kh.length →
        (allocCands db fromAddr specs kh th).1.getD a default = kh.getD a default) ∧
      (∀ t, t < th.length →
        (allocCands db fromAddr specs kh th).2.1.getD t default = th.getD t default) := by
  intro specs
  induction specs with
  | nil => intro kh th; constructor <;> intro x hx <;> simp [allocCands]
  | cons s rest ih =>
    intro kh th
    simp only [allocCands, makeCandidate]
    constructor
    · intro a ha
      rw [(ih _ _).1 a (by simp; omega)]
      exact getD_append_lt _ _ _ ha
    · intro t ht
      rw [(ih _ _).2 t (by simp; omega)]
      exact getD_append_lt _ _ _ ht

theorem allocCands_newThread (db : AriadneDB) (fromAddr : Nat) :
    ∀ (specs : List CandSpec) (kh : List KnotObj) (th : List ThreadObj),
      kh.length = th.length + 1 →
      ∀ t, th.length ≤ t → t < (allocCands db fromAddr specs kh th).2.1.length →
        ∃ s ∈ specs,
          (allocCands db fromAddr specs kh th).2.1.getD t default =
            ⟨fromAddr, t + 1, s.evidence, 0⟩ := by
  intro specs
  induction specs with
  | nil =>
    intro kh th _ t ht hlt
    simp [allocCands] at hlt
    omega
  | cons s rest ih =>
    intro kh th hrel t ht hlt
    simp only [allocCands, makeCandidate] at hlt ⊢
    rcases Nat.eq_or_lt_of_le ht with hEq | hgt
    · refine ⟨s, List.mem_cons_self s rest, ?_⟩
      rw [(allocCands_keepOld db fromAddr rest _ _).2 t (by simp; omega)]
      rw [getD_append_ge _ _ _ (by omega)]
      subst hEq
      simp
      exact hrel
    · obtain ⟨s2, hs2, hval⟩ :=
        ih (kh ++ [⟨s.toRec, db.getArtistsByRecording s.toRec Select.all,
              if s.linkInThread = true then some th.length else none,
              some fromAddr, -1⟩])
          (th ++ [⟨fromAddr, kh.length, s.evidence, 0⟩])
          (by simp; omega) t (by simp; omega) hlt
      exact ⟨s2, List.mem_cons_of_mem s hs2, hval⟩

theorem allocCands_newKnot (db : AriadneDB) (fromAddr : Nat) :
    ∀ (specs : List CandSpec) (kh : List KnotObj) (th : List ThreadObj),
      ∀ a, kh.length ≤ a → a < (allocCands db fromAddr specs kh th).1.length →
        ((allocCands db fromAddr specs kh th).1.getD a default).prevKnot = some fromAddr ∧
        ((allocCands db fromAddr specs kh th).1.getD a default).id = -1 := by
  intro specs
  induction specs with
  | nil =>
    intro kh th a ha hlt
    simp [allocCands] at hlt
    omega
  | cons s rest ih =>
    intro kh th a ha hlt
    simp only [allocCands, makeCandidate] at hlt ⊢
    rcases Nat.eq_or_lt_of_le ha with hEq | hgt
    · rw [(allocCands_keepOld db fromAddr rest _ _).1 a (by simp; omega)]
      rw [getD_append_ge _ _ _ (by omega)]
      subst hEq
      simp
    · exact ih (kh ++ [_]) (th ++ [_]) a (by simp; omega) hlt

theorem allocCands_addrs (db : AriadneDB) (fromAddr : Nat) :
    ∀ (specs : List CandSpec) (kh : List KnotObj) (th : List ThreadObj),
      ∀ a ∈ (allocCands db fromAddr specs kh th).2.2,
        th.length ≤ a ∧ a < (allocCands db fromAddr specs kh th).2.1.length := by
  intro specs
  induction specs with
  | nil => intro kh th a ha; simp [allocCands] at ha
  | cons s rest ih =>
    intro kh th a ha
    simp only [allocCands, makeCandidate, List.mem_cons] at ha
    rcases ha with rfl | ha
    · constructor
      · exact Nat.le_refl _
      · rw [(allocCands_len db fromAddr (s :: rest) kh th).2]
        simp
    · have := ih (kh ++ [_]) (th ++ [_]) a ha
      simp only [allocCands, makeCandidate]
      constructor
      · have h2 := this.1
        simp at h2
        omega
      · exact this.2

/-! Lemmas about the full per-refresh fan-out. -/

theorem discoverAllAlloc_len (db : AriadneDB) (select fromAddr : Nat)
    (fromKnot : KnotObj) :
    ∀ (tts : List ThreadType) (kh : List KnotObj) (th : List ThreadObj),
      (kh.length = th.length + 1 →
        (discoverAllAlloc db select fromAddr fromKnot tts kh th).1.length =
          (discoverAllAlloc db select fromAddr fromKnot tts kh th).2.1.length + 1) ∧
      th.length ≤ (discoverAllAlloc db select fromAddr fromKnot tts kh th).2.1.length ∧
      kh.length ≤ (discoverAllAlloc db select fromAddr fromKnot tts kh th).1.length := by
  intro tts
  induction tts with
  | nil => intro kh th; simp [discoverAllAlloc]
  | cons tt rest ih =>
    intro kh th
    simp only [discoverAllAlloc]
    have hlen := allocCands_len db fromAddr (discoverSpecs db tt fromKnot select) kh th
    refine ⟨?_, ?_, ?_⟩
    · intro hrel
      exact (ih _ _).1 (by omega)
    · have := (ih (allocCands db fromAddr (discoverSpecs db tt fromKnot select) kh th).1
        (allocCands db fromAddr (discoverSpecs db tt fromKnot select) kh th).2.1).2.1
      omega
    · have := (ih (allocCands db fromAddr (discoverSpecs db tt fromKnot select) kh th).1
        (allocCands db fromAddr (discoverSpecs db tt fromKnot select) kh th).2.1).2.2
      omega

theorem discoverAllAlloc_keepOld (db : AriadneDB) (select fromAddr : Nat)
    (fromKnot : KnotObj) :
    ∀ (tts : List ThreadType) (kh : List KnotObj) (th : List ThreadObj),
      (∀ a, a < kh.length →
        (discoverAllAlloc db select fromAddr fromKnot tts kh th).1.getD a default =
          kh.getD a default) ∧
      (∀ t, t < th.length →
        (discoverAllAlloc db select fromAddr fromKnot tts kh th).2.1.getD t default =
          th.getD t default) := by
  intro tts
  induction tts with
  | nil => intro kh th; constructor <;> intro x hx <;> simp [discoverAllAlloc]
  | cons tt rest ih =>
    intro kh th
    simp only [discoverAllAlloc]
    have hlen := allocCands_len db fromAddr (discoverSpecs db tt fromKnot select) kh th
    have hpre := allocCands_keepOld db fromAddr (discoverSpecs db tt fromKnot select) kh th
    constructor
    · intro a ha
      rw [(ih _ _).1 a (by omega)]
      exact hpre.1 a ha
    · intro t ht
      rw [(ih _ _).2 t (by omega)]
      exact hpre.2 t ht

theorem discoverAllAlloc_newThread (db : AriadneDB) (select fromAddr : Nat)
    (fromKnot : KnotObj) :
    ∀ (tts : List ThreadType) (kh : List KnotObj) (th : List ThreadObj),
      kh.length = th.length + 1 →
      ∀ t, th.length ≤ t →
        t < (discoverAllAlloc db select fromAddr fromKnot tts kh th).2.1.length →
        ((discoverAllAlloc db select fromAddr fromKnot tts kh th).2.1.getD t default).toKnot
            = t + 1 ∧
        ((discoverAllAlloc db select fromAddr fromKnot tts kh th).2.1.getD t default).fromKnot
            = fromAddr ∧
        ((discoverAllAlloc db select fromAddr fromKnot tts kh th).2.1.getD t default).id
            = 0 := by
  intro tts
  induction tts with
  | nil =>
    intro kh th _ t ht hlt
    simp [discoverAllAlloc] at hlt
    omega
  | cons tt rest ih =>
    intro kh th hrel t ht hlt
    simp only [discoverAllAlloc] at hlt ⊢
    have hlen := allocCands_len db fromAddr (discoverSpecs db tt fromKnot select) kh th
    by_cases hmid : t < (allocCands db fromAddr (discoverSpecs db tt fromKnot select) kh th).2.1.length
    · rw [(discoverAllAlloc_keepOld db select fromAddr fromKnot rest _ _).2 t hmid]
      obtain ⟨s, _, hval⟩ := allocCands_newThread db fromAddr
        (discoverSpecs db tt fromKnot select) kh th hrel t ht hmid
      rw [hval]
      exact ⟨rfl, rfl, rfl⟩
    · exact ih _ _ (by omega) t (by omega) hlt

theorem discoverAllAlloc_newKnot (db : AriadneDB) (select fromAddr : Nat)
    (fromKnot : KnotObj) :
    ∀ (tts : List ThreadType) (kh : List KnotObj) (th : List ThreadObj),
      ∀ a, kh.length ≤ a →
        a < (discoverAllAlloc db select fromAddr fromKnot tts kh th).1.length →
        ((discoverAllAlloc db select fromAddr fromKnot tts kh th).1.getD a default).prevKnot
            = some fromAddr ∧
        ((discoverAllAlloc db select fromAddr fromKnot tts kh th).1.getD a default).id
            = -1 := by
  intro tts
  induction tts with
  | nil =>
    intro kh th a ha hlt
    simp [discoverAllAlloc] at hlt
    omega
  | cons tt rest ih =>
    intro kh th a ha hlt
    simp only [discoverAllAlloc] at hlt ⊢
    have hlen := allocCands_len db fromAddr (discoverSpecs db tt fromKnot select) kh th
    by_cases hmid : a < (allocCands db fromAddr (discoverSpecs db tt fromKnot select) kh th).1.length
    · rw [(discoverAllAlloc_keepOld db select fromAddr fromKnot rest _ _).1 a hmid]
      exact allocCands_newKnot db fromAddr (discoverSpecs db tt fromKnot select) kh th a ha hmid
    · exact ih _ _ a (by omega) hlt

theorem discoverAllAlloc_pairs (db : AriadneDB) (select fromAddr : Nat)
    (fromKnot : KnotObj) :
    ∀ (tts : List ThreadType) (kh : List KnotObj) (th : List ThreadObj),
      kh.length = th.length + 1 →
      ∀ p ∈ (discoverAllAlloc db select fromAddr fromKnot tts kh th).2.2,
        ∀ a ∈ p.2,
          th.length ≤ a ∧
          a < (discoverAllAlloc db select fromAddr fromKnot tts kh th).2.1.length ∧
          ∃ s ∈ discoverSpecs db p.1 fromKnot select,
            ((discoverAllAlloc db select fromAddr fromKnot tts kh th).2.1.getD a default).evidence
              = s.evidence := by
  intro tts
  induction tts with
  | nil => intro kh th _ p hp; simp [discoverAllAlloc] at hp
  | cons tt rest ih =>
    intro kh th hrel p hp a ha
    simp only [discoverAllAlloc, List.mem_cons] at hp ⊢
    have hlen := allocCands_len db fromAddr (discoverSpecs db tt fromKnot select) kh th
    rcases hp with rfl | hp
    · have hb := allocCands_addrs db fromAddr (discoverSpecs db tt fromKnot select) kh th a ha
      obtain ⟨s, hs, hval⟩ := allocCands_newThread db fromAddr
        (discoverSpecs db tt fromKnot select) kh th hrel a hb.1 hb.2
      refine ⟨hb.1, ?_, s, hs, ?_⟩
      · have := (discoverAllAlloc_len db select fromAddr fromKnot rest
          (allocCands db fromAddr (discoverSpecs db tt fromKnot select) kh th).1
          (allocCands db fromAddr (discoverSpecs db tt fromKnot select) kh th).2.1).2
        omega
      · rw [(discoverAllAlloc_keepOld db select fromAddr fromKnot rest _ _).2 a hb.2, hval]
    · have := ih _ _ (by omega) p hp a ha
      exact ⟨by omega, this.2.1, this.2.2⟩

/-- Everything the controller-level rank returns came from one of its
per-type candidate lists. -/
theorem controllerRank_subset (th : List ThreadObj) (oracle : Oracle)
    (pairs : List (ThreadType × List Nat)) (n : Nat) :
    ∀ x ∈ controllerRank th oracle pairs n, ∃ p ∈ pairs, x ∈ p.2 := by
  intro x hx
  simp only [controllerRank, List.mem_flatMap] at hx
  obtain ⟨ip, hip, hx⟩ := hx
  refine ⟨ip.2, snd_mem_of_mem_enum hip, ?_⟩
  rcases hcode : ip.2.2 with _ | ⟨a, rest⟩
  · rw [hcode] at hx
    cases htt : ip.2.1 <;> rw [htt] at hx <;> exact absurd hx (List.not_mem_nil x)
  · rw [hcode] at hx
    cases htt : ip.2.1 <;> rw [htt] at hx
    case sameArtist =>
      exact rankSameArtist_subset _ _ _ _ x hx
    all_goals exact pickFrom_subset _ _ _ x hx

/-! Lemmas about thread id assignment. -/

theorem setThreadId_length (th : List ThreadObj) (addr newId : Nat) :
    (setThreadId th addr newId).length = th.length := by
  simp [setThreadId]

theorem setThreadId_getD (th : List ThreadObj) (addr newId t : Nat) :
    (setThreadId th addr newId).getD t default =
      if t = addr ∧ t < th.length
      then ⟨(th.getD t default).fromKnot, (th.getD t default).toKnot,
            (th.getD t default).evidence, newId⟩
      else th.getD t default := by
  unfold setThreadId
  by_cases h : t = addr
  · subst h
    by_cases hlt : t < th.length
    · rw [getD_set_self _ _ _ hlt]
      simp [hlt]
    · simp only [List.getD_eq_getElem?_getD, List.getElem?_set]
      simp [hlt, List.getElem?_eq_none (Nat.le_of_not_lt hlt)]
  · rw [getD_set_ne _ _ _ (fun hEq => h hEq.symm)]
    simp [h]

theorem assignThreadIDs_len :
    ∀ (addrs : List Nat) (th : List ThreadObj) (c : Nat),
      (assignThreadIDs addrs th c).1.length = th.length ∧
      (assignThreadIDs addrs th c).2 = c + addrs.length := by
  intro addrs
  induction addrs with
  | nil => intro th c; simp [assignThreadIDs]
  | cons a rest ih =>
    intro th c
    simp only [assignThreadIDs]
    have := ih (setThreadId th a (c + 1)) (c + 1)
    rw [this.1, this.2, setThreadId_length]
    simp
    omega

theorem assignThreadIDs_proj :
    ∀ (addrs : List Nat) (th : List ThreadObj) (c : Nat) (t : Nat),
      ((assignThreadIDs addrs th c).1.getD t default).fromKnot =
        (th.getD t default).fromKnot ∧
      ((assignThreadIDs addrs th c).1.getD t default).toKnot =
        (th.getD t default).toKnot ∧
      ((assignThreadIDs addrs th c).1.getD t default).evidence =
        (th.getD t default).evidence := by
  intro addrs
  induction addrs with
  | nil => intro th c t; simp [assignThreadIDs]
  | cons a rest ih =>
    intro th c t
    simp only [assignThreadIDs]
    have := ih (setThreadId th a (c + 1)) (c + 1) t
    rw [this.1, this.2.1, this.2.2, setThreadId_getD]
    by_cases h : t = a ∧ t < th.length
    · obtain ⟨rfl, hlt⟩ := h
      simp [hlt]
    · simp [h]

theorem assignThreadIDs_id_notmem :
    ∀ (addrs : List Nat) (th : List ThreadObj) (c : Nat) (t : Nat),
      t ∉ addrs →
      (assignThreadIDs addrs th c).1.getD t default = th.getD t default := by
  intro addrs
  induction addrs with
  | nil => intro th c t _; simp [assignThreadIDs]
  | cons a rest ih =>
    intro th c t ht
    simp only [assignThreadIDs]
    rw [ih _ _ t (fun hc => ht (List.mem_cons_of_mem a hc))]
    rw [setThreadId_getD]
    have : ¬(t = a ∧ t < th.length) := fun hc => ht (hc.1 ▸ List.mem_cons_self t rest)
    simp [this]

theorem assignThreadIDs_id_mem :
    ∀ (addrs : List Nat) (th : List ThreadObj) (c : Nat) (t : Nat),
      t ∈ addrs → t < th.length →
      c < ((assignThreadIDs addrs th c).1.getD t default).id ∧
      ((assignThreadIDs addrs th c).1.getD t default).id ≤ c + addrs.length := by
  intro addrs
  induction addrs with
  | nil => intro th c t ht _; cases ht
  | cons a rest ih =>
    intro th c t ht hlt
    simp only [assignThreadIDs]
    by_cases hmem : t ∈ rest
    · have := ih (setThreadId th a (c + 1)) (c + 1) t hmem
        (by rw [setThreadId_length]; exact hlt)
      constructor
      · omega
      · have h2 := this.2
        simp at h2 ⊢
        omega
    · rcases List.mem_cons.mp ht with rfl | hrest
      · rw [assignThreadIDs_id_notmem rest _ _ t hmem, setThreadId_getD]
        simp [hlt]
      · exact absurd hrest hmem

theorem assignThreadIDs_id_le :
    ∀ (addrs : List Nat) (th : List ThreadObj) (c : Nat),
      (∀ t, t < th.length → (th.getD t default).id ≤ c) →
      ∀ t, t < th.length →
        ((assignThreadIDs addrs th c).1.getD t default).id ≤
          (assignThreadIDs addrs th c).2 := by
  intro addrs
  induction addrs with
  | nil =>
    intro th c hall t hlt
    simpa [assignThreadIDs] using hall t hlt
  | cons a rest ih =>
    intro th c hall t hlt
    simp only [assignThreadIDs]
    refine ih (setThreadId th a (c + 1)) (c + 1) ?_ t
      (by rw [setThreadId_length]; exact hlt)
    intro u hu
    rw [setThreadId_length] at hu
    rw [setThreadId_getD]
    by_cases h : u = a ∧ u < th.length
    · obtain ⟨rfl, hlt2⟩ := h
      simp [hlt2]
    · simp only [h, if_false]
      exact Nat.le_succ_of_le (hall u hu)

/-- Bounds of the candidate addresses listed in the per-type pairs, with no
assumption on the incoming arenas. -/
theorem discoverAllAlloc_pairsBound (db : AriadneDB) (select fromAddr : Nat)
    (fromKnot : KnotObj) :
    ∀ (tts : List ThreadType) (kh : List KnotObj) (th : List ThreadObj),
      ∀ p ∈ (discoverAllAlloc db select fromAddr fromKnot tts kh th).2.2,
        ∀ a ∈ p.2,
          th.length ≤ a ∧
          a < (discoverAllAlloc db select fromAddr fromKnot tts kh th).2.1.length := by
  intro tts
  induction tts with
  | nil => intro kh th p hp; simp [discoverAllAlloc] at hp
  | cons tt rest ih =>
    intro kh th p hp a ha
    simp only [discoverAllAlloc, List.mem_cons] at hp ⊢
    have hlen := allocCands_len db fromAddr (discoverSpecs db tt fromKnot select) kh th
    rcases hp with rfl | hp
    · have hb := allocCands_addrs db fromAddr (discoverSpecs db tt fromKnot select) kh th a ha
      refine ⟨hb.1, ?_⟩
      have := (discoverAllAlloc_len db select fromAddr fromKnot rest
        (allocCands db fromAddr (discoverSpecs db tt fromKnot select) kh th).1
        (allocCands db fromAddr (discoverSpecs db tt fromKnot select) kh th).2.1).2.1
      omega
    · have := ih _ _ p hp a ha
      exact ⟨by omega, this.2⟩

/-! Behaviour of the three session operations. -/

/-- What one updateBestThreads call does to the state: the committed lists,
the position and the knot counter are untouched; the thread counter moves
forward; the cache is replaced by fresh addresses whose assigned ids all lie
strictly above the thread counter the call started from. -/
theorem updateBestThreads_spec (db : AriadneDB) (cfg : Config)
    (oracle : Oracle) (b : Backend) :
    (updateBestThreads db cfg oracle b).ctrlKnots = b.ctrlKnots ∧
    (updateBestThreads db cfg oracle b).ctrlThreads = b.ctrlThreads ∧
    (updateBestThreads db cfg oracle b).currentKnot = b.currentKnot ∧
    (updateBestThreads db cfg oracle b).knotCounter = b.knotCounter ∧
    b.threadCounter ≤ (updateBestThreads db cfg oracle b).threadCounter ∧
    b.threadHeap.length ≤ (updateBestThreads db cfg oracle b).threadHeap.length ∧
    b.knotHeap.length ≤ (updateBestThreads db cfg oracle b).knotHeap.length ∧
    ∃ ranked, (updateBestThreads db cfg oracle b).bestThreads = some ranked ∧
      ∀ t ∈ ranked,
        b.threadHeap.length ≤ t ∧
        t < (updateBestThreads db cfg oracle b).threadHeap.length ∧
        b.threadCounter < (getThread (updateBestThreads db cfg oracle b) t).id ∧
        (getThread (updateBestThreads db cfg oracle b) t).id ≤
          (updateBestThreads db cfg oracle b).threadCounter := by
  have heq : updateBestThreads db cfg oracle b =
      { b with
        knotHeap := (refreshDiscover db cfg b).1
        threadHeap := (assignThreadIDs (refreshRanked db cfg oracle b)
          (refreshDiscover db cfg b).2.1 b.threadCounter).1
        bestThreads := some (refreshRanked db cfg oracle b)
        threadCounter := (assignThreadIDs (refreshRanked db cfg oracle b)
          (refreshDiscover db cfg b).2.1 b.threadCounter).2 } := rfl
  rw [heq]
  simp only []
  have hassignLen := assignThreadIDs_len (refreshRanked db cfg oracle b)
    (refreshDiscover db cfg b).2.1 b.threadCounter
  have hdlen := discoverAllAlloc_len db cfg.possibleThreadsPerThreadType
    b.currentKnot (getKnot b b.currentKnot)
    (cfg.allowedThreadTypes.filter fun tt =>
      isApplicable db tt (getKnot b b.currentKnot))
    b.knotHeap b.threadHeap
  have hboundR : ∀ t ∈ refreshRanked db cfg oracle b,
      b.threadHeap.length ≤ t ∧ t < (refreshDiscover db cfg b).2.1.length := by
    intro t ht
    obtain ⟨p, hp, hmem⟩ := controllerRank_subset (refreshDiscover db cfg b).2.1
      oracle (refreshDiscover db cfg b).2.2 cfg.rankedThreadsPerThreadType t ht
    exact discoverAllAlloc_pairsBound db cfg.possibleThreadsPerThreadType
      b.currentKnot (getKnot b b.currentKnot)
      (cfg.allowedThreadTypes.filter fun tt =>
        isApplicable db tt (getKnot b b.currentKnot))
      b.knotHeap b.threadHeap p hp t hmem
  refine ⟨trivial, trivial, trivial, trivial, ?_, ?_, ?_,
    refreshRanked db cfg oracle b, rfl, ?_⟩
  · rw [hassignLen.2]; omega
  · rw [hassignLen.1]
    exact hdlen.2.1
  · exact hdlen.2.2
  · intro t ht
    have hb := hboundR t ht
    have hid := assignThreadIDs_id_mem (refreshRanked db cfg oracle b)
      (refreshDiscover db cfg b).2.1 b.threadCounter t ht hb.2
    refine ⟨hb.1, ?_, ?_, ?_⟩
    · simp only [getThread, hassignLen.1]; omega
    · exact hid.1
    · rw [hassignLen.2]
      exact hid.2

/-- What a successful followThread call does to the state. -/
theorem followThread_ok_spec (threadID : Nat) (b b2 : Backend)
    (h : followThread threadID b = .ok b2) :
    ∃ cached t, b.bestThreads = some cached ∧
      cached.find? (fun x => (getThread b x).id == threadID) = some t ∧
      b2.ctrlThreads = b.ctrlThreads ++ [t] ∧
      b2.ctrlKnots = b.ctrlKnots ++ [(getThread b t).toKnot] ∧
      b2.currentKnot = (getThread b t).toKnot ∧
      b2.threadHeap = b.threadHeap ∧
      b2.bestThreads = b.bestThreads ∧
      b2.threadCounter = b.threadCounter ∧
      b2.knotCounter = b.knotCounter + 1 ∧
      b2.knotHeap.length = b.knotHeap.length ∧
      (∀ a, a ≠ (getThread b t).toKnot → getKnot b2 a = getKnot b a) ∧
      (getKnot b2 (getThread b t).toKnot).recording =
        (getKnot b (getThread b t).toKnot).recording ∧
      (getKnot b2 (getThread b t).toKnot).creditedArtists =
        (getKnot b (getThread b t).toKnot).creditedArtists ∧
      (getKnot b2 (getThread b t).toKnot).inThread =
        (getKnot b (getThread b t).toKnot).inThread ∧
      (getKnot b2 (getThread b t).toKnot).prevKnot =
        (getKnot b (getThread b t).toKnot).prevKnot ∧
      ((getThread b t).toKnot < b.knotHeap.length →
        (getKnot b2 (getThread b t).toKnot).id = (b.knotCounter : Int)) := by
  unfold followThread at h
  split at h
  · cases h
  next cached hbt =>
    split at h
    · cases h
    next t hfind =>
      simp only [Except.ok.injEq] at h
      subst h
      refine ⟨cached, t, hbt, hfind, rfl, rfl, rfl, rfl, rfl, rfl, rfl,
        List.length_set _ _ _, ?_, ?_⟩
      · intro a ha
        exact getD_set_ne _ _ _ (fun hEq => ha hEq.symm)
      · by_cases hlt : (getThread b t).toKnot < b.knotHeap.length
        · unfold getKnot
          rw [getD_set_self _ _ _ hlt]
          exact ⟨rfl, rfl, rfl, rfl, fun _ => rfl⟩
        · unfold getKnot
          rw [List.set_eq_of_length_le (Nat.le_of_not_lt hlt)]
          exact ⟨rfl, rfl, rfl, rfl, fun hc => absurd hc hlt⟩

/-- followThread raises exactly when the id is not found in the cache. -/
theorem followThread_error_spec (threadID : Nat) (b : Backend)
    (cached : List Nat) (hbt : b.bestThreads = some cached)
    (hfind : cached.find? (fun x => (getThread b x).id == threadID) = none) :
    followThread threadID b = .error (.genericException "Wrong Thread ID") := by
  simp only [followThread, hbt, hfind]

/-- What a successful moveCurrentKnot call does to the state. -/
theorem moveCurrentKnot_ok_spec (knotID : Int) (b b2 : Backend)
    (h : moveCurrentKnot knotID b = .ok b2) :
    ∃ a, b.ctrlKnots.find? (fun x => (getKnot b x).id == knotID) = some a ∧
      b2 = { b with currentKnot := a } := by
  unfold moveCurrentKnot at h
  split at h
  next a hfind =>
    simp only [Except.ok.injEq] at h
    exact ⟨a, hfind, h.symm⟩
  · cases h

/-- Each served request moves the counters and arena sizes forward only. -/
theorem stepCaught_mono (db : AriadneDB) (cfg : Config) (b : Backend)
    (op : Op) :
    b.threadCounter ≤ (stepCaught db cfg b op).threadCounter ∧
    b.knotCounter ≤ (stepCaught db cfg b op).knotCounter ∧
    b.threadHeap.length ≤ (stepCaught db cfg b op).threadHeap.length ∧
    b.knotHeap.length ≤ (stepCaught db cfg b op).knotHeap.length := by
  cases op with
  | refresh oracle =>
    obtain ⟨_, _, _, hkc, htc, hthl, hkhl, _⟩ := updateBestThreads_spec db cfg oracle b
    simp only [stepCaught]
    exact ⟨htc, Nat.le_of_eq hkc.symm, hthl, hkhl⟩
  | follow threadID =>
    rcases hf : followThread threadID b with e | b2
    · simp [stepCaught, hf]
    · have hred : stepCaught db cfg b (.follow threadID) = b2 := by
        simp [stepCaught, hf]
      rw [hred]
      obtain ⟨c, t, _, _, _, _, _, hth, _, htc, hkc, hkhl, _⟩ :=
        followThread_ok_spec threadID b b2 hf
      refine ⟨Nat.le_of_eq htc.symm, by omega,
        Nat.le_of_eq (congrArg List.length hth.symm), Nat.le_of_eq hkhl.symm⟩
  | jump knotID =>
    rcases hm : moveCurrentKnot knotID b with e | b2
    · simp [stepCaught, hm]
    · have hred : stepCaught db cfg b (.jump knotID) = b2 := by
        simp [stepCaught, hm]
      rw [hred]
      obtain ⟨a, _, hb2⟩ := moveCurrentKnot_ok_spec knotID b b2 hm
      subst hb2
      simp

/-- The thread counter never decreases across a whole request sequence. -/
theorem runOps_threadCounter_mono (db : AriadneDB) (cfg : Config) :
    ∀ (ops : List Op) (b : Backend),
      b.threadCounter ≤ (runOps db cfg b ops).threadCounter := by
  intro ops
  induction ops with
  | nil => intro b; exact Nat.le_refl _
  | cons op rest ih =>
    intro b
    have h1 := (stepCaught_mono db cfg b op).1
    have h2 := ih (stepCaught db cfg b op)
    simp only [runOps, List.foldl_cons] at h2 ⊢
    omega

/-! Preservation of the state invariant. -/

theorem inv_start (db : AriadneDB) (startRec : Recording) :
    Inv (startBackend db startRec) := by
  refine ⟨rfl, ?_, rfl, ?_, ?_, ?_, ?_, ?_, ?_, ?_, ?_, ?_, ?_⟩
  · intro t ht; simp [startBackend] at ht
  · intro a ha hlt; simp [startBackend] at hlt; omega
  · intro a ha; simp [startBackend] at ha ⊢; omega
  · intro t ht; simp [startBackend] at ht
  · simp [startBackend]
  · simp [startBackend]
  · intro l hl; simp [startBackend] at hl
  · intro a ha hne; simp [startBackend] at ha; exact absurd ha hne
  · intro t ht; simp [startBackend] at ht
  · intro a hlt
    simp [startBackend] at hlt
    subst hlt
    simp [startBackend, getKnot]
  · intro t ht; simp [startBackend] at ht

theorem inv_jump (knotID : Int) (b b2 : Backend) (hInv : Inv b)
    (h : moveCurrentKnot knotID b = .ok b2) : Inv b2 := by
  obtain ⟨a, hfind, hb2⟩ := moveCurrentKnot_ok_spec knotID b b2 h
  have hmem : a ∈ b.ctrlKnots := List.mem_of_find?_eq_some hfind
  subst hb2
  exact ⟨hInv.hlen, hInv.htoKnot, hInv.hprev0, hInv.hprevLt, hInv.hknots,
    hInv.hthreads, hmem, hInv.hstart, hInv.hbest, hInv.hinbound,
    hInv.houtbound, hInv.hknotIds, hInv.hthreadIds⟩

theorem inv_follow (threadID : Nat) (b b2 : Backend) (hInv : Inv b)
    (h : followThread threadID b = .ok b2) : Inv b2 := by
  obtain ⟨cached, t, hbt, hfind, hct, hck, hcur, hth, hbest2, htc, hkc, hkhl,
    hother, hrec, hcred, hin, hprev, hidSet⟩ := followThread_ok_spec threadID b b2 h
  have htmem : t ∈ cached := List.mem_of_find?_eq_some hfind
  have htlt : t < b.threadHeap.length := hInv.hbest cached hbt t htmem
  have htk : (getThread b t).toKnot = t + 1 := hInv.htoKnot t htlt
  have htklt : (getThread b t).toKnot < b.knotHeap.length := by
    rw [htk, hInv.hlen]; omega
  have hprevEq : ∀ a, (getKnot b2 a).prevKnot = (getKnot b a).prevKnot := by
    intro a
    by_cases ha : a = (getThread b t).toKnot
    · subst ha; exact hprev
    · rw [hother a ha]
  have hgt : ∀ u, getThread b2 u = getThread b u := by
    intro u
    unfold getThread
    rw [hth]
  refine ⟨?_, ?_, ?_, ?_, ?_, ?_, ?_, ?_, ?_, ?_, ?_, ?_, ?_⟩
  · rw [hkhl, hth]; exact hInv.hlen
  · intro u hu
    rw [hth] at hu
    rw [hgt u]
    exact hInv.htoKnot u hu
  · rw [hprevEq 0]; exact hInv.hprev0
  · intro a ha hlt
    rw [hkhl] at hlt
    rw [hprevEq a]
    exact hInv.hprevLt a ha hlt
  · intro a ha
    rw [hck] at ha
    rw [hkhl]
    rcases List.mem_append.mp ha with ha | ha
    · exact hInv.hknots a ha
    · simp at ha
      subst ha
      exact htklt
  · intro u hu
    rw [hct] at hu
    rw [hth]
    rcases List.mem_append.mp hu with hu | hu
    · exact hInv.hthreads u hu
    · simp at hu
      subst hu
      exact htlt
  · rw [hcur, hck]
    simp
  · rw [hck]
    exact List.mem_append.mpr (Or.inl hInv.hstart)
  · intro l hl u hu
    rw [hbest2, hbt] at hl
    rw [hth]
    cases hl
    exact hInv.hbest cached hbt u hu
  · intro a ha hne
    rw [hck] at ha
    rw [hct]
    rcases List.mem_append.mp ha with ha | ha
    · exact List.mem_append.mpr (Or.inl (hInv.hinbound a ha hne))
    · simp at ha
      subst ha
      rw [htk]
      simp
  · intro u hu
    rw [hct] at hu
    rw [hck]
    rcases List.mem_append.mp hu with hu | hu
    · exact List.mem_append.mpr (Or.inl (hInv.houtbound u hu))
    · simp at hu
      subst hu
      rw [← htk]
      simp
  · intro a hlt
    rw [hkhl] at hlt
    rw [hkc]
    by_cases ha : a = (getThread b t).toKnot
    · subst ha
      rw [hidSet htklt]
      omega
    · rw [hother a ha]
      have := hInv.hknotIds a hlt
      omega
  · intro u hu
    rw [hth] at hu
    rw [hgt u, htc]
    exact hInv.hthreadIds u hu

theorem inv_refresh (db : AriadneDB) (cfg : Config) (oracle : Oracle)
    (b : Backend) (hInv : Inv b) : Inv (updateBestThreads db cfg oracle b) := by
  have heq : updateBestThreads db cfg oracle b =
      { b with
        knotHeap := (refreshDiscover db cfg b).1
        threadHeap := (assignThreadIDs (refreshRanked db cfg oracle b)
          (refreshDiscover db cfg b).2.1 b.threadCounter).1
        bestThreads := some (refreshRanked db cfg oracle b)
        threadCounter := (assignThreadIDs (refreshRanked db cfg oracle b)
          (refreshDiscover db cfg b).2.1 b.threadCounter).2 } := rfl
  have hrd : refreshDiscover db cfg b =
      discoverAllAlloc db cfg.possibleThreadsPerThreadType b.currentKnot
        (getKnot b b.currentKnot)
        (cfg.allowedThreadTypes.filter fun tt =>
          isApplicable db tt (getKnot b b.currentKnot))
        b.knotHeap b.threadHeap := rfl
  have hdlen := discoverAllAlloc_len db cfg.possibleThreadsPerThreadType
    b.currentKnot (getKnot b b.currentKnot)
    (cfg.allowedThreadTypes.filter fun tt =>
      isApplicable db tt (getKnot b b.currentKnot)) b.knotHeap b.threadHeap
  have hdpre := discoverAllAlloc_keepOld db cfg.possibleThreadsPerThreadType
    b.currentKnot (getKnot b b.currentKnot)
    (cfg.allowedThreadTypes.filter fun tt =>
      isApplicable db tt (getKnot b b.currentKnot)) b.knotHeap b.threadHeap
  have hdnewT := discoverAllAlloc_newThread db cfg.possibleThreadsPerThreadType
    b.currentKnot (getKnot b b.currentKnot)
    (cfg.allowedThreadTypes.filter fun tt =>
      isApplicable db tt (getKnot b b.currentKnot)) b.knotHeap b.threadHeap
    hInv.hlen
  have hdnewK := discoverAllAlloc_newKnot db cfg.possibleThreadsPerThreadType
    b.currentKnot (getKnot b b.currentKnot)
    (cfg.allowedThreadTypes.filter fun tt =>
      isApplicable db tt (getKnot b b.currentKnot)) b.knotHeap b.threadHeap
  rw [← hrd] at hdlen hdpre hdnewT hdnewK
  have hassignLen := assignThreadIDs_len (refreshRanked db cfg oracle b)
    (refreshDiscover db cfg b).2.1 b.threadCounter
  have hassignProj := assignThreadIDs_proj (refreshRanked db cfg oracle b)
    (refreshDiscover db cfg b).2.1 b.threadCounter
  have hboundR : ∀ t ∈ refreshRanked db cfg oracle b,
      b.threadHeap.length ≤ t ∧ t < (refreshDiscover db cfg b).2.1.length := by
    intro t ht
    obtain ⟨p, hp, hmem⟩ := controllerRank_subset (refreshDiscover db cfg b).2.1
      oracle (refreshDiscover db cfg b).2.2 cfg.rankedThreadsPerThreadType t ht
    have := discoverAllAlloc_pairsBound db cfg.possibleThreadsPerThreadType
      b.currentKnot (getKnot b b.currentKnot)
      (cfg.allowedThreadTypes.filter fun tt =>
        isApplicable db tt (getKnot b b.currentKnot)) b.knotHeap b.threadHeap
    rw [← hrd] at this
    exact this p hp t hmem
  have hcurlt : b.currentKnot < b.knotHeap.length :=
    hInv.hknots b.currentKnot hInv.hcur
  have hkh0 : 0 < b.knotHeap.length := by rw [hInv.hlen]; omega
  rw [heq]
  refine ⟨?_, ?_, ?_, ?_, ?_, ?_, ?_, ?_, ?_, ?_, ?_, ?_, ?_⟩
  · simp only []
    rw [hassignLen.1]
    exact hdlen.1 hInv.hlen
  · intro t ht
    simp only [getThread] at ht ⊢
    rw [hassignLen.1] at ht
    rw [(hassignProj t).2.1]
    by_cases hold : t < b.threadHeap.length
    · rw [hdpre.2 t hold]
      exact hInv.htoKnot t hold
    · exact (hdnewT t (Nat.le_of_not_lt hold) ht).1
  · simp only [getKnot]
    rw [hdpre.1 0 hkh0]
    exact hInv.hprev0
  · intro a ha hlt
    simp only [getKnot] at hlt ⊢
    by_cases hold : a < b.knotHeap.length
    · rw [hdpre.1 a hold]
      exact hInv.hprevLt a ha hold
    · refine ⟨b.currentKnot, (hdnewK a (Nat.le_of_not_lt hold) hlt).1, ?_⟩
      omega
  · intro a ha
    simp only [] at ha ⊢
    have := hInv.hknots a ha
    omega
  · intro t ht
    simp only [] at ht ⊢
    rw [hassignLen.1]
    have := hInv.hthreads t ht
    omega
  · exact hInv.hcur
  · exact hInv.hstart
  · intro l hl t ht
    simp only [Option.some.injEq] at hl
    subst hl
    simp only []
    rw [hassignLen.1]
    exact (hboundR t ht).2
  · exact hInv.hinbound
  · exact hInv.houtbound
  · intro a hlt
    simp only [getKnot] at hlt ⊢
    by_cases hold : a < b.knotHeap.length
    · rw [hdpre.1 a hold]
      exact hInv.hknotIds a hold
    · rw [(hdnewK a (Nat.le_of_not_lt hold) hlt).2]
      omega
  · intro t ht
    simp only [getThread] at ht ⊢
    rw [hassignLen.1] at ht
    refine assignThreadIDs_id_le (refreshRanked db cfg oracle b)
      (refreshDiscover db cfg b).2.1 b.threadCounter ?_ t ht
    intro u hu
    by_cases hold : u < b.threadHeap.length
    · rw [hdpre.2 u hold]
      exact hInv.hthreadIds u hold
    · rw [(hdnewT u (Nat.le_of_not_lt hold) hu).2.2]
      omega

/-- Every served request preserves the invariant. -/
theorem inv_step (db : AriadneDB) (cfg : Config) (b : Backend) (op : Op)
    (hInv : Inv b) : Inv (stepCaught db cfg b op) := by
  cases op with
  | refresh oracle =>
    simpa only [stepCaught] using inv_refresh db cfg oracle b hInv
  | follow threadID =>
    rcases hf : followThread threadID b with e | b2
    · simpa [stepCaught, hf] using hInv
    · have hred : stepCaught db cfg b (.follow threadID) = b2 := by
        simp [stepCaught, hf]
      rw [hred]
      exact inv_follow threadID b b2 hInv hf
  | jump knotID =>
    rcases hm : moveCurrentKnot knotID b with e | b2
    · simpa [stepCaught, hm] using hInv
    · have hred : stepCaught db cfg b (.jump knotID) = b2 := by
        simp [stepCaught, hm]
      rw [hred]
      exact inv_jump knotID b b2 hInv hm

/-- The invariant holds in every reachable session state. -/
theorem inv_reach (db : AriadneDB) (cfg : Config) (startRec : Recording)
    (ops : List Op) : Inv (reach db cfg startRec ops) := by
  unfold reach
  suffices h : ∀ (l : List Op) (b : Backend), Inv b → Inv (runOps db cfg b l) by
    exact h ops (startBackend db startRec) (inv_start db startRec)
  intro l
  induction l with
  | nil => intro b hb; exact hb
  | cons op rest ih =>
    intro b hb
    simp only [runOps, List.foldl_cons] at ih ⊢
    exact ih (stepCaught db cfg b op) (inv_step db cfg b op hb)

/-! The prevKnot walk under the invariant. -/

theorem default_knot_prevKnot : (default : KnotObj).prevKnot = none := rfl

/-- Under the invariant, every prevKnot pointer strictly decreases the
address: destinations are always allocated after their parents. -/
theorem prev_decreases (b : Backend) (hInv : Inv b) :
    ∀ a p, (b.knotHeap.getD a default).prevKnot = some p → p < a := by
  intro a p hp
  by_cases ha : a < b.knotHeap.length
  · by_cases h0 : a = 0
    · subst h0
      rw [show (b.knotHeap.getD 0 default).prevKnot = none from hInv.hprev0] at hp
      cases hp
    · obtain ⟨q, hq, hlt⟩ := hInv.hprevLt a (Nat.pos_of_ne_zero h0) ha
      have hq2 : (b.knotHeap.getD a default).prevKnot = some q := hq
      rw [hq2] at hp
      cases hp
      exact hlt
  · rw [List.getD_eq_default _ _ (Nat.le_of_not_lt ha), default_knot_prevKnot] at hp
    cases hp

theorem chainToStart_of_wf (kh : List KnotObj)
    (hprev0 : (kh.getD 0 default).prevKnot = none)
    (hsome : ∀ a, 0 < a → a < kh.length →
      ∃ p, (kh.getD a default).prevKnot = some p ∧ p < a) :
    ∀ a, a < kh.length → ∀ fuel, a < fuel → chainToStart kh fuel a = true := by
  intro a
  induction a using Nat.strong_induction_on with
  | _ a ih =>
    intro ha fuel hfuel
    cases fuel with
    | zero => omega
    | succ f =>
      by_cases h0 : a = 0
      · subst h0
        simp only [chainToStart]
        rw [hprev0]
        rfl
      · obtain ⟨p, hp, hplt⟩ := hsome a (Nat.pos_of_ne_zero h0) ha
        simp only [chainToStart]
        rw [hp]
        exact ih p hplt (by omega) f (by omega)

theorem chainList_le (kh : List KnotObj)
    (hwf : ∀ a p, (kh.getD a default).prevKnot = some p → p < a) :
    ∀ fuel a x, x ∈ chainList kh fuel a → x ≤ a := by
  intro fuel
  induction fuel with
  | zero =>
    intro a x hx
    simp [chainList] at hx
    omega
  | succ f ih =>
    intro a x hx
    simp only [chainList] at hx
    rcases hp : (kh.getD a default).prevKnot with _ | p
    · rw [hp] at hx
      simp at hx
      omega
    · rw [hp] at hx
      simp only [List.mem_cons] at hx
      rcases hx with rfl | hx
      · exact Nat.le_refl x
      · have := ih p x hx
        have := hwf a p hp
        omega

theorem chainList_nodup (kh : List KnotObj)
    (hwf : ∀ a p, (kh.getD a default).prevKnot = some p → p < a) :
    ∀ fuel a, (chainList kh fuel a).Nodup := by
  intro fuel
  induction fuel with
  | zero => intro a; simp [chainList]
  | succ f ih =>
    intro a
    simp only [chainList]
    rcases hp : (kh.getD a default).prevKnot with _ | p
    · simp
    · rw [List.nodup_cons]
      refine ⟨?_, ih p⟩
      intro hmem
      have h1 := chainList_le kh hwf f p a hmem
      have h2 := hwf a p hp
      omega

/-- Under the invariant, each committed Knot other than the start has
exactly one inbound committed Thread. -/
theorem inbound_count (b : Backend) (hInv : Inv b) (a : Nat)
    (ha : a ∈ b.ctrlKnots) (hne : a ≠ 0) :
    ((b.ctrlThreads.dedup).filter
      (fun t => (getThread b t).toKnot == a)).length = 1 := by
  have hin := hInv.hinbound a ha hne
  have hnd := List.nodup_dedup b.ctrlThreads
  have hmem : a - 1 ∈ b.ctrlThreads.dedup := List.mem_dedup.mpr hin
  have halt : a - 1 < b.threadHeap.length := hInv.hthreads _ hin
  have hpa : ((getThread b (a - 1)).toKnot == a) = true := by
    rw [hInv.htoKnot (a - 1) halt]
    simp
    omega
  apply filter_length_one hnd hmem hpa
  intro y hy hpy
  have hymem : y ∈ b.ctrlThreads := List.mem_dedup.mp hy
  have hylt := hInv.hthreads y hymem
  have heqa : (getThread b y).toKnot = a := by simpa using hpy
  rw [hInv.htoKnot y hylt] at heqa
  omega

/-! The claims. -/

/-- C1: after every sequence of start/follow/jumpTo operations, every
committed Knot other than the start Knot has exactly one inbound committed
Thread, following prevKnot pointers from any committed Knot reaches the
start Knot (address 0) without revisiting any Knot, and distinct committed
Threads always have distinct destination Knots because every Thread is
created together with a brand-new destination Knot, never re-linked to an
existing one. -/
theorem c1_tree_invariant (db : AriadneDB) (cfg : Config)
    (startRec : Recording) (ops : List Op) :
    (∀ a ∈ (reach db cfg startRec ops).ctrlKnots, a ≠ 0 →
      (((reach db cfg startRec ops).ctrlThreads.dedup).filter
        (fun t => (getThread (reach db cfg startRec ops) t).toKnot == a)).length
        = 1) ∧
    (∀ a ∈ (reach db cfg startRec ops).ctrlKnots,
      chainToStart (reach db cfg startRec ops).knotHeap
        (reach db cfg startRec ops).knotHeap.length a = true ∧
      (chainList (reach db cfg startRec ops).knotHeap
        (reach db cfg startRec ops).knotHeap.length a).Nodup) ∧
    (∀ t1 ∈ (reach db cfg startRec ops).ctrlThreads,
      ∀ t2 ∈ (reach db cfg startRec ops).ctrlThreads,
      (getThread (reach db cfg startRec ops) t1).toKnot =
        (getThread (reach db cfg startRec ops) t2).toKnot → t1 = t2) := by
  have hInv := inv_reach db cfg startRec ops
  have hwf := prev_decreases (reach db cfg startRec ops) hInv
  refine ⟨?_, ?_, ?_⟩
  · intro a ha hne
    exact inbound_count (reach db cfg startRec ops) hInv a ha hne
  · intro a ha
    have halt := hInv.hknots a ha
    constructor
    · exact chainToStart_of_wf (reach db cfg startRec ops).knotHeap
        hInv.hprev0 hInv.hprevLt a halt
        (reach db cfg startRec ops).knotHeap.length halt
    · exact chainList_nodup (reach db cfg startRec ops).knotHeap hwf
        (reach db cfg startRec ops).knotHeap.length a
  · intro t1 h1 t2 h2 htk
    have hl1 := hInv.hthreads t1 h1
    have hl2 := hInv.hthreads t2 h2
    rw [hInv.htoKnot t1 hl1, hInv.htoKnot t2 hl2] at htk
    omega

theorem c1_tree_invariant_witness :
    (((reach dbC cfgC recR [.refresh oIdx, .follow 1]).ctrlThreads.dedup).filter
      (fun t =>
        (getThread (reach dbC cfgC recR [.refresh oIdx, .follow 1]) t).toKnot
          == 1)).length = 1 ∧
    chainToStart (reach dbC cfgC recR [.refresh oIdx, .follow 1]).knotHeap
      (reach dbC cfgC recR [.refresh oIdx, .follow 1]).knotHeap.length 1
      = true :=
  ⟨(c1_tree_invariant dbC cfgC recR [.refresh oIdx, .follow 1]).1 1
      (by decide) (by decide),
   ((c1_tree_invariant dbC cfgC recR [.refresh oIdx, .follow 1]).2.1 1
      (by decide)).1⟩

/-- C10: getEventsByArtist called with the default empty event-type filter
returns the empty list no matter how many artist-event links the store
holds (the fallback branch requires a non-empty events accumulator, which
an empty filter can never produce); only calls passing a non-empty list of
event-type names can return events. -/
theorem c10_getEventsByArtist_empty_filter (db : AriadneDB) (a : Artist)
    (sel : Select) : db.getEventsByArtist a sel [] = [] := rfl

/-- C5: ThreadBySameArtist.rank returns at most n threads per distinct
connecting artist and only threads from its input; the shared
np.random.choice-based rank of the other strategies returns at most n
threads, all from its input.  Both hold for every random draw sequence,
which is all AriadneController.rank relies on. -/
theorem c5_rank_bounds (α : Type) (artistOf : α → Artist)
    (oracle : Nat → Nat → Nat) (oracle2 : Nat → Nat)
    (threads threads2 : List α) (n : Nat) (a : Artist) (r : List α) :
    (∀ x ∈ rankSameArtist artistOf oracle threads n, x ∈ threads) ∧
    ((rankSameArtist artistOf oracle threads n).filter
      (fun t => artistOf t == a)).length ≤ n ∧
    (rankRandom oracle2 threads2 n = some r →
      (∀ x ∈ r, x ∈ threads2) ∧ r.length ≤ n) := by
  refine ⟨rankSameArtist_subset artistOf oracle threads n,
    rankSameArtist_count_le artistOf oracle threads n a, ?_⟩
  intro h
  obtain ⟨hsub, hlen⟩ := rankRandom_spec oracle2 threads2 n r h
  exact ⟨hsub, Nat.le_of_eq hlen⟩

theorem c5_rank_bounds_witness :
    artistA ∈ [artistA] ∧
    (∀ x ∈ [artistA], x ∈ [artistA]) ∧ ([artistA] : List Artist).length ≤ 1 :=
  ⟨(c5_rank_bounds Artist (fun a => a) (fun _ _ => 0) (fun _ => 0) [artistA]
      [artistA] 1 artistA [artistA]).1 artistA (by decide),
   (c5_rank_bounds Artist (fun a => a) (fun _ _ => 0) (fun _ => 0) [artistA]
      [artistA] 1 artistA [artistA]).2.2 (by decide)⟩

/-- C8: GroupWithMembersInCommon.isApplicable is false on a Knot whose sole
credited artist is a Person, and refreshing candidates with only that
strategy allowed caches an empty candidate list (the strategy is pruned
before discovery) rather than failing: updateBestThreads is a total
function here. -/
theorem c8_gwmic_person_inapplicable (db : AriadneDB) (cfg : Config)
    (oracle : Oracle) (b : Backend) (a : Artist)
    (hsole : (getKnot b b.currentKnot).creditedArtists = [a])
    (hperson : db.isPerson a = true)
    (hallowed : cfg.allowedThreadTypes = [.groupWithMembersInCommon]) :
    isApplicable db .groupWithMembersInCommon (getKnot b b.currentKnot)
      = false ∧
    (updateBestThreads db cfg oracle b).bestThreads = some [] := by
  have htn : a.typeName = "Person" := by
    simpa [AriadneDB.isPerson] using hperson
  have hgroup : db.isGroup a = false := by
    simp [AriadneDB.isGroup, htn]
  have happ : isApplicable db .groupWithMembersInCommon
      (getKnot b b.currentKnot) = false := by
    simp [isApplicable, hsole, hgroup]
  refine ⟨happ, ?_⟩
  have heq : (updateBestThreads db cfg oracle b).bestThreads =
      some (refreshRanked db cfg oracle b) := rfl
  rw [heq]
  suffices h : refreshRanked db cfg oracle b = [] by rw [h]
  unfold refreshRanked refreshDiscover
  rw [hallowed]
  simp [List.filter_cons, happ, discoverAllAlloc, controllerRank]

theorem c8_gwmic_person_inapplicable_witness :
    isApplicable dbC .groupWithMembersInCommon
      (getKnot (startBackend dbC recR) (startBackend dbC recR).currentKnot)
      = false ∧
    (updateBestThreads dbC cfgG oZ (startBackend dbC recR)).bestThreads
      = some [] :=
  c8_gwmic_person_inapplicable dbC cfgG oZ (startBackend dbC recR) artistA
    (by decide) (by decide) rfl

/-- C9: followThread neither consumes nor invalidates the candidate cache:
when an id is found once, a second followThread with the same id and no
intervening refresh succeeds again, appending the same Thread object
(address t) and the same destination Knot object a second time and
overwriting that Knot's previously assigned id with the next counter
value. -/
theorem c9_follow_not_consuming (threadID : Nat) (b : Backend)
    (cached : List Nat) (t : Nat)
    (hbest : b.bestThreads = some cached)
    (hfind : cached.find? (fun x => (getThread b x).id == threadID) = some t)
    (hlt : (getThread b t).toKnot < b.knotHeap.length) :
    ∃ b1 b2, followThread threadID b = .ok b1 ∧
      followThread threadID b1 = .ok b2 ∧
      b1.ctrlKnots = b.ctrlKnots ++ [(getThread b t).toKnot] ∧
      b1.ctrlThreads = b.ctrlThreads ++ [t] ∧
      b2.ctrlKnots = b1.ctrlKnots ++ [(getThread b t).toKnot] ∧
      b2.ctrlThreads = b1.ctrlThreads ++ [t] ∧
      (getKnot b1 (getThread b t).toKnot).id = (b.knotCounter : Int) ∧
      (getKnot b2 (getThread b t).toKnot).id = (b.knotCounter : Int) + 1 := by
  have h1 : ∃ b1, followThread threadID b = .ok b1 := by
    simp only [followThread, hbest, hfind]
    exact ⟨_, rfl⟩
  obtain ⟨b1, hok1⟩ := h1
  obtain ⟨c1, t1, hbt1, hfind1, hct1, hck1, _, hth1, hbest1, _, hkc1, hkhl1,
    _, _, _, _, _, hid1⟩ := followThread_ok_spec threadID b b1 hok1
  rw [hbest] at hbt1
  cases hbt1
  rw [hfind] at hfind1
  cases hfind1
  have hgt : ∀ u, getThread b1 u = getThread b u := by
    intro u
    unfold getThread
    rw [hth1]
  have hpred : (fun x => (getThread b1 x).id == threadID) =
      (fun x => (getThread b x).id == threadID) := by
    funext x
    rw [hgt x]
  have hbest1b : b1.bestThreads = some cached := by rw [hbest1, hbest]
  have hfind1b : cached.find? (fun x => (getThread b1 x).id == threadID)
      = some t := by rw [hpred, hfind]
  have h2 : ∃ b2, followThread threadID b1 = .ok b2 := by
    simp only [followThread, hbest1b, hfind1b]
    exact ⟨_, rfl⟩
  obtain ⟨b2, hok2⟩ := h2
  obtain ⟨c2, t2, hbt2, hfind2, hct2, hck2, _, _, _, _, _, _,
    _, _, _, _, _, hid2⟩ := followThread_ok_spec threadID b1 b2 hok2
  rw [hbest1b] at hbt2
  cases hbt2
  rw [hfind1b] at hfind2
  cases hfind2
  refine ⟨b1, b2, hok1, hok2, hck1, hct1, ?_, ?_, hid1 hlt, ?_⟩
  · rw [hck2, hgt t]
  · rw [hct2]
  · have hlt1 : (getThread b1 t).toKnot < b1.knotHeap.length := by
      rw [hgt t, hkhl1]
      exact hlt
    have := hid2 hlt1
    rw [hgt t] at this
    rw [this, hkc1]
    omega

theorem c9_follow_not_consuming_witness :
    ∃ b1 b2,
      followThread 1 (updateBestThreads dbC cfgC oIdx (startBackend dbC recR))
        = .ok b1 ∧
      followThread 1 b1 = .ok b2 ∧
      b1.ctrlKnots =
        (updateBestThreads dbC cfgC oIdx (startBackend dbC recR)).ctrlKnots ++
          [(getThread (updateBestThreads dbC cfgC oIdx (startBackend dbC recR))
            0).toKnot] ∧
      b1.ctrlThreads =
        (updateBestThreads dbC cfgC oIdx (startBackend dbC recR)).ctrlThreads
          ++ [0] ∧
      b2.ctrlKnots = b1.ctrlKnots ++
        [(getThread (updateBestThreads dbC cfgC oIdx (startBackend dbC recR))
          0).toKnot] ∧
      b2.ctrlThreads = b1.ctrlThreads ++ [0] ∧
      (getKnot b1
        (getThread (updateBestThreads dbC cfgC oIdx (startBackend dbC recR))
          0).toKnot).id =
        ((updateBestThreads dbC cfgC oIdx (startBackend dbC recR)).knotCounter
          : Int) ∧
      (getKnot b2
        (getThread (updateBestThreads dbC cfgC oIdx (startBackend dbC recR))
          0).toKnot).id =
        ((updateBestThreads dbC cfgC oIdx (startBackend dbC recR)).knotCounter
          : Int) + 1 :=
  c9_follow_not_consuming 1
    (updateBestThreads dbC cfgC oIdx (startBackend dbC recR)) [0, 1] 0
    (by decide) (by decide) (by decide)

/-- C2 counterexample: in a concrete session the user refreshes, follows,
refreshes again and jumps back to the start Knot; the cached thread at
address 2 now has fromKnot = 2 while the current Knot is 0, yet following
its id 3 succeeds and commits it instead of failing with InvalidTransition
as the claim states. -/
theorem c2_counterexample :
    (getThread
        (reach dbC cfgC recR [.refresh oIdx, .follow 2, .refresh oIdx, .jump 0])
        2).fromKnot = 2 ∧
    (reach dbC cfgC recR
      [.refresh oIdx, .follow 2, .refresh oIdx, .jump 0]).currentKnot = 0 ∧
    (getThread
        (reach dbC cfgC recR [.refresh oIdx, .follow 2, .refresh oIdx, .jump 0])
        2).id = 3 ∧
    followThread 3
        (reach dbC cfgC recR [.refresh oIdx, .follow 2, .refresh oIdx, .jump 0])
      = .ok (stepCaught dbC cfgC
          (reach dbC cfgC recR [.refresh oIdx, .follow 2, .refresh oIdx, .jump 0])
          (.follow 3)) ∧
    (stepCaught dbC cfgC
        (reach dbC cfgC recR [.refresh oIdx, .follow 2, .refresh oIdx, .jump 0])
        (.follow 3)).ctrlThreads =
      (reach dbC cfgC recR
        [.refresh oIdx, .follow 2, .refresh oIdx, .jump 0]).ctrlThreads ++ [2]
    := by decide

/-- C2 (amended): followThread commits the cached thread and advances the
current Knot whenever the id is found in the cached candidate list, with no
comparison of the thread's fromKnot against the current Knot (there is no
InvalidTransition error in the code); it fails, with the generic Wrong
Thread ID exception, exactly when the id is not in the cache. -/
theorem c2_follow_ignores_fromKnot (threadID : Nat) (b : Backend)
    (cached : List Nat) (hbest : b.bestThreads = some cached) :
    (∀ t, cached.find? (fun x => (getThread b x).id == threadID) = some t →
      ∃ b2, followThread threadID b = .ok b2 ∧
        b2.ctrlThreads = b.ctrlThreads ++ [t] ∧
        b2.ctrlKnots = b.ctrlKnots ++ [(getThread b t).toKnot] ∧
        b2.currentKnot = (getThread b t).toKnot) ∧
    (cached.find? (fun x => (getThread b x).id == threadID) = none →
      followThread threadID b = .error (.genericException "Wrong Thread ID"))
    := by
  constructor
  · intro t hfind
    have hok : ∃ b2, followThread threadID b = .ok b2 := by
      simp only [followThread, hbest, hfind]
      exact ⟨_, rfl⟩
    obtain ⟨b2, hok⟩ := hok
    obtain ⟨c2, t2, hbt2, hfind2, hct2, hck2, hcur2, _⟩ :=
      followThread_ok_spec threadID b b2 hok
    rw [hbest] at hbt2
    cases hbt2
    rw [hfind] at hfind2
    cases hfind2
    exact ⟨b2, hok, hct2, hck2, hcur2⟩
  · intro hfind
    exact followThread_error_spec threadID b cached hbest hfind

theorem c2_follow_ignores_fromKnot_witness :
    ∃ b2,
      followThread 3
          (reach dbC cfgC recR
            [.refresh oIdx, .follow 2, .refresh oIdx, .jump 0]) = .ok b2 ∧
      b2.ctrlThreads =
        (reach dbC cfgC recR
          [.refresh oIdx, .follow 2, .refresh oIdx, .jump 0]).ctrlThreads
          ++ [2] ∧
      b2.ctrlKnots =
        (reach dbC cfgC recR
          [.refresh oIdx, .follow 2, .refresh oIdx, .jump 0]).ctrlKnots ++
          [(getThread
            (reach dbC cfgC recR
              [.refresh oIdx, .follow 2, .refresh oIdx, .jump 0]) 2).toKnot] ∧
      b2.currentKnot =
        (getThread
          (reach dbC cfgC recR
            [.refresh oIdx, .follow 2, .refresh oIdx, .jump 0]) 2).toKnot :=
  (c2_follow_ignores_fromKnot 3
    (reach dbC cfgC recR [.refresh oIdx, .follow 2, .refresh oIdx, .jump 0])
    [2, 3] (by decide)).1 2 (by decide)

/-- The only failure CreditedArtists.render can raise is the IndexError on
an empty artist list. -/
theorem renderCreditedArtists_error (l : List Artist) (e : PyErr)
    (h : renderCreditedArtists l = .error e) :
    e = .genericException "IndexError: list index out of range" := by
  match l with
  | [] =>
    simp only [renderCreditedArtists, Except.error.injEq] at h
    exact h.symm
  | [a] => simp [renderCreditedArtists] at h
  | [a, b] => simp [renderCreditedArtists] at h
  | a :: b :: c :: rest => simp [renderCreditedArtists] at h

/-- The only failure Knot.serialize can raise is the render IndexError. -/
theorem serializeKnot_error (b : Backend) (a : Nat) (e : PyErr)
    (h : serializeKnot b a = .error e) :
    e = .genericException "IndexError: list index out of range" := by
  unfold serializeKnot at h
  rcases hr : renderCreditedArtists (getKnot b a).creditedArtists with f | s
  · rw [hr] at h
    simp only [Except.map] at h
    cases h
    exact renderCreditedArtists_error _ _ hr
  · rw [hr] at h
    simp [Except.map] at h

theorem serializeKnots_error (b : Backend) :
    ∀ (l : List Nat) (e : PyErr), serializeKnots b l = .error e →
      e = .genericException "IndexError: list index out of range" := by
  intro l
  induction l with
  | nil => intro e h; simp [serializeKnots] at h
  | cons a rest ih =>
    intro e h
    simp only [serializeKnots] at h
    rcases hs : serializeKnot b a with f | s
    · rw [hs] at h
      cases h
      exact serializeKnot_error b a e hs
    · rw [hs] at h
      rcases hrest : serializeKnots b rest with f2 | l2
      · rw [hrest] at h
        cases h
        exact ih e hrest
      · rw [hrest] at h
        cases h

/-- C6 counterexample: moveCurrentKnot with an unknown Knot id fails with
the plain untyped python Exception carrying the message Bad Knot ID; the
code defines no NotFound, Stale, InvalidTransition or ProviderUnavailable
error kind at all, so this façade failure is a generic failure, refuting
the claim. -/
theorem c6_counterexample :
    moveCurrentKnot 99 (startBackend dbC recR)
      = .error (.genericException "Bad Knot ID") := by decide

/-- C6 (amended): every façade operation either returns its typed success
value or raises a plain generic Exception whose message identifies the
raise site (Wrong MBID for start, Wrong Thread ID or the missing-attribute
error for follow, Bad Knot ID for jump, the render IndexError for
listVisitedKnots); refreshCandidates (updateBestThreads) is total.  No
typed error kinds exist. -/
theorem c6_errors_are_generic_exceptions (db : AriadneDB) (b : Backend)
    (recID : String) (threadID : Nat) (knotID : Int) :
    (∀ e, runBackend db recID = .error e →
      e = .genericException "Wrong MBID") ∧
    (∀ e, followThread threadID b = .error e →
      e = .genericException "Wrong Thread ID" ∨
      e = .genericException "AttributeError: bestThreads") ∧
    (∀ e, moveCurrentKnot knotID b = .error e →
      e = .genericException "Bad Knot ID") ∧
    (∀ e, listVisitedKnots b = .error e →
      e = .genericException "IndexError: list index out of range") := by
  refine ⟨?_, ?_, ?_, ?_⟩
  · intro e h
    unfold runBackend inputRecording at h
    rcases hg : db.getRecordingByGID
        (if recID == "default"
         then "084a24a9-b289-4584-9fb5-1ca0f7500eb3" else recID) with _ | r
    · simp only [hg, Except.map, Except.error.injEq] at h
      exact h.symm
    · simp only [hg, Except.map] at h
      exact Except.noConfusion h
  · intro e h
    rcases hbt : b.bestThreads with _ | cached
    · simp only [followThread, hbt, Except.error.injEq] at h
      exact Or.inr h.symm
    · rcases hfind : cached.find? (fun t => (getThread b t).id == threadID)
          with _ | t
      · simp only [followThread, hbt, hfind, Except.error.injEq] at h
        exact Or.inl h.symm
      · simp only [followThread, hbt, hfind] at h
        exact Except.noConfusion h
  · intro e h
    rcases hfind : b.ctrlKnots.find? (fun a => (getKnot b a).id == knotID)
        with _ | a
    · simp only [moveCurrentKnot, hfind, Except.error.injEq] at h
      exact h.symm
    · simp only [moveCurrentKnot, hfind] at h
      exact Except.noConfusion h
  · intro e h
    exact serializeKnots_error b b.ctrlKnots e h

theorem c6_errors_are_generic_exceptions_witness :
    PyErr.genericException "Bad Knot ID"
      = .genericException "Bad Knot ID" :=
  (c6_errors_are_generic_exceptions dbC (startBackend dbC recR) "zz" 7 99).2.2.1
    (.genericException "Bad Knot ID") (by decide)

/-- C3: a thread id issued by one refreshCandidates call is no longer
accepted by follow after any later refreshCandidates call, whatever
requests were served in between and even if the refreshed list contains the
same logical edge again: every id assigned by the later refresh is strictly
larger than every id issued earlier, so the lookup fails and followThread
raises. -/
theorem c3_ids_stale_after_refresh (db : AriadneDB) (cfg : Config)
    (o1 o2 : Oracle) (ops : List Op) (b : Backend) (threadID : Nat)
    (l : List Nat)
    (hbest : (updateBestThreads db cfg o1 b).bestThreads = some l)
    (hissued : ∃ t ∈ l,
      (getThread (updateBestThreads db cfg o1 b) t).id = threadID) :
    followThread threadID
      (updateBestThreads db cfg o2
        (runOps db cfg (updateBestThreads db cfg o1 b) ops))
      = .error (.genericException "Wrong Thread ID") := by
  obtain ⟨t, htl, hid⟩ := hissued
  have hle : threadID ≤ (updateBestThreads db cfg o1 b).threadCounter := by
    obtain ⟨_, _, _, _, _, _, _, ranked1, hb1, hfacts1⟩ :=
      updateBestThreads_spec db cfg o1 b
    rw [hbest] at hb1
    injection hb1 with hb1
    subst hb1
    have := (hfacts1 t htl).2.2.2
    omega
  have hmono := runOps_threadCounter_mono db cfg ops
    (updateBestThreads db cfg o1 b)
  obtain ⟨_, _, _, _, _, _, _, ranked2, hb2, hfacts2⟩ :=
    updateBestThreads_spec db cfg o2
      (runOps db cfg (updateBestThreads db cfg o1 b) ops)
  apply followThread_error_spec _ _ ranked2 hb2
  apply List.find?_eq_none.mpr
  intro x hx
  have hgt := (hfacts2 x hx).2.2.1
  simp only [beq_iff_eq]
  intro hc
  omega

theorem c3_ids_stale_after_refresh_witness :
    followThread 1
      (updateBestThreads dbC cfgC oIdx
        (runOps dbC cfgC
          (updateBestThreads dbC cfgC oIdx (startBackend dbC recR)) []))
      = .error (.genericException "Wrong Thread ID") :=
  c3_ids_stale_after_refresh dbC cfgC oIdx oIdx [] (startBackend dbC recR) 1
    [0, 1] (by decide) ⟨0, by decide, by decide⟩

/-- C4 counterexample: one refreshCandidates call on a freshly started
session moves the thread counter from 0 to 2 although nothing was
committed (the committed thread list stays empty), refuting the claim that
each counter is incremented only when a candidate is committed on follow,
never at discovery/refresh time. -/
theorem c4_counterexample :
    (startBackend dbC recR).threadCounter = 0 ∧
    (updateBestThreads dbC cfgC oZ (startBackend dbC recR)).threadCounter = 2 ∧
    (updateBestThreads dbC cfgC oZ (startBackend dbC recR)).ctrlThreads
      = (startBackend dbC recR).ctrlThreads := by decide

/-- C4 (amended): within one session both id counters are monotone and
never reuse a value — every thread id on the heap stays ≤ the thread
counter and every knot id stays < the knot counter, so a refresh hands out
thread ids strictly above everything issued before, and a follow stamps a
knot id never used before.  The increment sites differ from the claim:
refresh (updateBestThreads) bumps the thread counter per cached candidate
and leaves the knot counter alone, while a successful follow bumps the
knot counter and leaves the thread counter alone. -/
theorem c4_counter_discipline (db : AriadneDB) (cfg : Config)
    (startRec : Recording) (ops : List Op) :
    (∀ op, (reach db cfg startRec ops).threadCounter ≤
        (stepCaught db cfg (reach db cfg startRec ops) op).threadCounter ∧
      (reach db cfg startRec ops).knotCounter ≤
        (stepCaught db cfg (reach db cfg startRec ops) op).knotCounter) ∧
    (∀ t, t < (reach db cfg startRec ops).threadHeap.length →
      (getThread (reach db cfg startRec ops) t).id ≤
        (reach db cfg startRec ops).threadCounter) ∧
    (∀ a, a < (reach db cfg startRec ops).knotHeap.length →
      (getKnot (reach db cfg startRec ops) a).id <
        ((reach db cfg startRec ops).knotCounter : Int)) ∧
    (∀ oracle,
      (updateBestThreads db cfg oracle (reach db cfg startRec ops)).knotCounter
        = (reach db cfg startRec ops).knotCounter ∧
      ∀ l, (updateBestThreads db cfg oracle
          (reach db cfg startRec ops)).bestThreads = some l →
        ∀ t ∈ l, (reach db cfg startRec ops).threadCounter <
          (getThread
            (updateBestThreads db cfg oracle (reach db cfg startRec ops))
            t).id) ∧
    (∀ threadID b2,
      followThread threadID (reach db cfg startRec ops) = .ok b2 →
      b2.threadCounter = (reach db cfg startRec ops).threadCounter ∧
      b2.knotCounter = (reach db cfg startRec ops).knotCounter + 1 ∧
      (getKnot b2 b2.currentKnot).id =
        ((reach db cfg startRec ops).knotCounter : Int)) := by
  have hInv := inv_reach db cfg startRec ops
  refine ⟨?_, hInv.hthreadIds, hInv.hknotIds, ?_, ?_⟩
  · intro op
    have := stepCaught_mono db cfg (reach db cfg startRec ops) op
    exact ⟨this.1, this.2.1⟩
  · intro oracle
    obtain ⟨_, _, _, hkc, _, _, _, ranked, hb, hfacts⟩ :=
      updateBestThreads_spec db cfg oracle (reach db cfg startRec ops)
    refine ⟨hkc, ?_⟩
    intro l hl t ht
    rw [hb] at hl
    injection hl with hl
    subst hl
    exact (hfacts t ht).2.2.1
  · intro threadID b2 hok
    obtain ⟨cached, t, hbt, hfind, _, _, hcur, _, _, htc, hkc, _,
      _, _, _, _, _, hidSet⟩ :=
      followThread_ok_spec threadID (reach db cfg startRec ops) b2 hok
    have htmem : t ∈ cached := List.mem_of_find?_eq_some hfind
    have htlt := hInv.hbest cached hbt t htmem
    have htklt : (getThread (reach db cfg startRec ops) t).toKnot <
        (reach db cfg startRec ops).knotHeap.length := by
      rw [hInv.htoKnot t htlt, hInv.hlen]
      omega
    rw [hcur]
    exact ⟨htc, hkc, hidSet htklt⟩

/-- Every candidate spec produced by SameArtist discovery carries one of
the credited artists as its connecting-artist evidence. -/
theorem discoverSameArtist_evidence (db : AriadneDB) (k : KnotObj)
    (select : Nat) :
    ∀ s ∈ discoverSameArtist db k select,
      ∃ ar ∈ k.creditedArtists, s.evidence = .sameArtist ar := by
  intro s hs
  simp only [discoverSameArtist, List.mem_flatMap, List.mem_map] at hs
  obtain ⟨ar, har, toRec, _, rfl⟩ := hs
  exact ⟨ar, har, rfl⟩

theorem dedup_const [DecidableEq α] :
    ∀ (l : List α) (a : α), l ≠ [] → (∀ x ∈ l, x = a) → l.dedup = [a] := by
  intro l
  induction l with
  | nil => intro a h _; exact absurd rfl h
  | cons x xs ih =>
    intro a _ hall
    have hx : x = a := hall x (List.mem_cons_self x xs)
    rcases xs with _ | ⟨y, ys⟩
    · subst hx
      simp
    · have hmem : x ∈ y :: ys := by
        have hy : y = a :=
          hall y (List.mem_cons_of_mem x (List.mem_cons_self y ys))
        rw [hx, ← hy]
        exact List.mem_cons_self y ys
      rw [List.dedup_cons_of_mem hmem]
      exact ih a (List.cons_ne_nil y ys)
        (fun z hz => hall z (List.mem_cons_of_mem x hz))

/-- When every input thread carries the same connecting artist,
ThreadBySameArtist.rank returns exactly nResults threads. -/
theorem rankSameArtist_const_length (artistOf : α → Artist)
    (oracle : Nat → Nat → Nat) (threads : List α) (n : Nat) (A : Artist)
    (hne : threads ≠ []) (hall : ∀ t ∈ threads, artistOf t = A) :
    (rankSameArtist artistOf oracle threads n).length = n := by
  unfold rankSameArtist
  have hmapne : threads.map artistOf ≠ [] := by
    cases threads
    · exact absurd rfl hne
    · simp
  have hmapall : ∀ x ∈ threads.map artistOf, x = A := by
    intro x hx
    simp only [List.mem_map] at hx
    obtain ⟨t, ht, rfl⟩ := hx
    exact hall t ht
  rw [dedup_const (threads.map artistOf) A hmapne hmapall]
  rw [show ([A] : List Artist).enum = [(0, A)] from rfl]
  rw [List.flatMap_cons, List.flatMap_nil, List.append_nil]
  have hfilter : threads.filter (fun t => artistOf t == A) = threads := by
    apply List.filter_eq_self.mpr
    intro t ht
    simp [hall t ht]
  rw [hfilter]
  exact pickFrom_length _ _ _ hne

/-- One-strategy fan-out: the pair list is a singleton. -/
theorem refresh_single_sameArtist (db : AriadneDB) (cfg : Config)
    (b : Backend)
    (happF : (cfg.allowedThreadTypes.filter fun tt =>
      isApplicable db tt (getKnot b b.currentKnot)) = [.sameArtist]) :
    refreshDiscover db cfg b =
      ((allocCands db b.currentKnot
          (discoverSpecs db .sameArtist (getKnot b b.currentKnot)
            cfg.possibleThreadsPerThreadType) b.knotHeap b.threadHeap).1,
       (allocCands db b.currentKnot
          (discoverSpecs db .sameArtist (getKnot b b.currentKnot)
            cfg.possibleThreadsPerThreadType) b.knotHeap b.threadHeap).2.1,
       [(.sameArtist,
         (allocCands db b.currentKnot
            (discoverSpecs db .sameArtist (getKnot b b.currentKnot)
              cfg.possibleThreadsPerThreadType) b.knotHeap
            b.threadHeap).2.2)]) := by
  unfold refreshDiscover
  rw [happF]
  rfl

theorem controllerRank_single_nil (th : List ThreadObj) (oracle : Oracle)
    (n : Nat) : controllerRank th oracle [(.sameArtist, [])] n = [] := rfl

theorem controllerRank_single_cons (th : List ThreadObj) (oracle : Oracle)
    (a : Nat) (rest : List Nat) (n : Nat) :
    controllerRank th oracle [(.sameArtist, a :: rest)] n =
      rankSameArtist (fun t => evidArtist (th.getD t default).evidence)
        (oracle 0) (a :: rest) n := by
  simp [controllerRank]

/-- C7 counterexample: starting at recR (credited to the single artist
artistA) with SameArtist only and both limits 2, a refresh can cache a
candidate leading back to recR itself — SameArtist discovery does not
exclude the origin recording — so following it commits a new Knot (the
visited list grows to 2) whose recording still equals recR, against the
claim that the new current Knot's recording differs from R. -/
theorem c7_counterexample :
    (reach dbC cfgC recR [.refresh oZ, .follow 2]).ctrlKnots.length = 2 ∧
    (reach dbC cfgC recR [.refresh oZ, .follow 2]).currentKnot ≠ 0 ∧
    (getKnot (reach dbC cfgC recR [.refresh oZ, .follow 2])
      (reach dbC cfgC recR [.refresh oZ, .follow 2]).currentKnot).recording
      = recR := by decide

/-- C7 (amended): starting at a recording credited to the single artist A,
with candidates restricted to SameArtist and rankedThreadsPerThreadType as
the per-seed bound, refreshCandidates caches at most that many candidates
(at most 2 in the scenario), each carrying A as the connecting artist, and
following any cached candidate id commits a fresh Knot: the visited list
grows to length 2 and the new Knot (never the start Knot) becomes current.
The new Knot's recording may still equal the starting recording, because
discovery does not exclude it (see the counterexample). -/
theorem c7_singleArtist_scenario (db : AriadneDB) (cfg : Config)
    (oracle : Oracle) (startRec : Recording) (A : Artist)
    (hA : db.artistsByRecordingQ startRec = [A])
    (hallowed : cfg.allowedThreadTypes = [.sameArtist]) :
    ∀ l, (updateBestThreads db cfg oracle
        (startBackend db startRec)).bestThreads = some l →
      l.length ≤ cfg.rankedThreadsPerThreadType ∧
      (∀ t ∈ l, evidArtist
        (getThread (updateBestThreads db cfg oracle (startBackend db startRec))
          t).evidence = A) ∧
      (∀ threadID b2,
        followThread threadID
          (updateBestThreads db cfg oracle (startBackend db startRec))
          = .ok b2 →
        b2.ctrlKnots.length = 2 ∧ b2.currentKnot ≠ 0) := by
  intro l hl
  have hb0cred : (getKnot (startBackend db startRec)
      (startBackend db startRec).currentKnot).creditedArtists = [A] := by
    simp [startBackend, getKnot, AriadneDB.getArtistsByRecording, querySel, hA]
  have happF : (cfg.allowedThreadTypes.filter fun tt =>
      isApplicable db tt (getKnot (startBackend db startRec)
        (startBackend db startRec).currentKnot)) = [.sameArtist] := by
    rw [hallowed]
    rfl
  have hrdEq := refresh_single_sameArtist db cfg (startBackend db startRec) happF
  have hb1eq : (updateBestThreads db cfg oracle
      (startBackend db startRec)).bestThreads =
      some (refreshRanked db cfg oracle (startBackend db startRec)) := rfl
  rw [hb1eq] at hl
  injection hl with hl
  subst hl
  have hrel : (startBackend db startRec).knotHeap.length =
      (startBackend db startRec).threadHeap.length + 1 := rfl
  have hevid : ∀ t ∈ (allocCands db (startBackend db startRec).currentKnot
      (discoverSpecs db .sameArtist
        (getKnot (startBackend db startRec)
          (startBackend db startRec).currentKnot)
        cfg.possibleThreadsPerThreadType)
      (startBackend db startRec).knotHeap
      (startBackend db startRec).threadHeap).2.2,
      evidArtist (((allocCands db (startBackend db startRec).currentKnot
        (discoverSpecs db .sameArtist
          (getKnot (startBackend db startRec)
            (startBackend db startRec).currentKnot)
          cfg.possibleThreadsPerThreadType)
        (startBackend db startRec).knotHeap
        (startBackend db startRec).threadHeap).2.1.getD t default).evidence)
        = A := by
    intro t ht
    have hb := allocCands_addrs db (startBackend db startRec).currentKnot _
      (startBackend db startRec).knotHeap
      (startBackend db startRec).threadHeap t ht
    obtain ⟨s, hs, hval⟩ := allocCands_newThread db
      (startBackend db startRec).currentKnot _
      (startBackend db startRec).knotHeap
      (startBackend db startRec).threadHeap hrel t hb.1 hb.2
    rw [hval]
    obtain ⟨ar, har, hse⟩ := discoverSameArtist_evidence db
      (getKnot (startBackend db startRec)
        (startBackend db startRec).currentKnot)
      cfg.possibleThreadsPerThreadType s hs
    rw [hb0cred] at har
    simp at har
    subst har
    rw [hse]
    rfl
  have hrr : refreshRanked db cfg oracle (startBackend db startRec) =
      controllerRank
        (allocCands db (startBackend db startRec).currentKnot
          (discoverSpecs db .sameArtist
            (getKnot (startBackend db startRec)
              (startBackend db startRec).currentKnot)
            cfg.possibleThreadsPerThreadType)
          (startBackend db startRec).knotHeap
          (startBackend db startRec).threadHeap).2.1
        oracle
        [(.sameArtist,
          (allocCands db (startBackend db startRec).currentKnot
            (discoverSpecs db .sameArtist
              (getKnot (startBackend db startRec)
                (startBackend db startRec).currentKnot)
              cfg.possibleThreadsPerThreadType)
            (startBackend db startRec).knotHeap
            (startBackend db startRec).threadHeap).2.2)]
        cfg.rankedThreadsPerThreadType := by
    unfold refreshRanked
    rw [hrdEq]
  have hproj := assignThreadIDs_proj
    (refreshRanked db cfg oracle (startBackend db startRec))
    (refreshDiscover db cfg (startBackend db startRec)).2.1
    (startBackend db startRec).threadCounter
  refine ⟨?_, ?_, ?_⟩
  · rcases haddr : (allocCands db (startBackend db startRec).currentKnot
        (discoverSpecs db .sameArtist
          (getKnot (startBackend db startRec)
            (startBackend db startRec).currentKnot)
          cfg.possibleThreadsPerThreadType)
        (startBackend db startRec).knotHeap
        (startBackend db startRec).threadHeap).2.2 with _ | ⟨a0, arest⟩
    · rw [hrr, haddr, controllerRank_single_nil]
      simp
    · rw [hrr, haddr, controllerRank_single_cons]
      have hall2 : ∀ t ∈ a0 :: arest,
          evidArtist (((allocCands db (startBackend db startRec).currentKnot
            (discoverSpecs db .sameArtist
              (getKnot (startBackend db startRec)
                (startBackend db startRec).currentKnot)
              cfg.possibleThreadsPerThreadType)
            (startBackend db startRec).knotHeap
            (startBackend db startRec).threadHeap).2.1.getD t
              default).evidence) = A := by
        intro t ht2
        rw [← haddr] at ht2
        exact hevid t ht2
      rw [rankSameArtist_const_length _ _ _ _ A (List.cons_ne_nil a0 arest)
        hall2]
  · intro t ht
    have hsub : t ∈ (allocCands db (startBackend db startRec).currentKnot
        (discoverSpecs db .sameArtist
          (getKnot (startBackend db startRec)
            (startBackend db startRec).currentKnot)
          cfg.possibleThreadsPerThreadType)
        (startBackend db startRec).knotHeap
        (startBackend db startRec).threadHeap).2.2 := by
      rw [hrr] at ht
      obtain ⟨p, hp, hmem⟩ := controllerRank_subset _ oracle _
        cfg.rankedThreadsPerThreadType t ht
      rw [List.mem_singleton] at hp
      subst hp
      exact hmem
    have hth : getThread
        (updateBestThreads db cfg oracle (startBackend db startRec)) t =
        ((assignThreadIDs
          (refreshRanked db cfg oracle (startBackend db startRec))
          (refreshDiscover db cfg (startBackend db startRec)).2.1
          (startBackend db startRec).threadCounter).1.getD t default) := rfl
    rw [hth, (hproj t).2.2]
    have h21 : (refreshDiscover db cfg (startBackend db startRec)).2.1 =
        (allocCands db (startBackend db startRec).currentKnot
          (discoverSpecs db .sameArtist
            (getKnot (startBackend db startRec)
              (startBackend db startRec).currentKnot)
            cfg.possibleThreadsPerThreadType)
          (startBackend db startRec).knotHeap
          (startBackend db startRec).threadHeap).2.1 := by
      rw [hrdEq]
    rw [h21]
    exact hevid t hsub
  · intro threadID b2 hok
    obtain ⟨cached, tf, hbt, hfindf, _, hckf, hcurf, _⟩ :=
      followThread_ok_spec threadID
        (updateBestThreads db cfg oracle (startBackend db startRec)) b2 hok
    have hInv1 : Inv (updateBestThreads db cfg oracle
        (startBackend db startRec)) :=
      inv_refresh db cfg oracle (startBackend db startRec)
        (inv_start db startRec)
    have htfmem : tf ∈ cached := List.mem_of_find?_eq_some hfindf
    have htflt := hInv1.hbest cached hbt tf htfmem
    have htfk := hInv1.htoKnot tf htflt
    constructor
    · rw [hckf]
      rw [show (updateBestThreads db cfg oracle
          (startBackend db startRec)).ctrlKnots = [0] from rfl]
      rfl
    · rw [hcurf, htfk]
      omega

theorem c7_singleArtist_scenario_witness :
    ([0, 1] : List Nat).length ≤ cfgC.rankedThreadsPerThreadType ∧
    evidArtist
      (getThread (updateBestThreads dbC cfgC oIdx (startBackend dbC recR))
        0).evidence = artistA :=
  ⟨(c7_singleArtist_scenario dbC cfgC oIdx recR artistA (by decide) rfl
      [0, 1] (by decide)).1,
   (c7_singleArtist_scenario dbC cfgC oIdx recR artistA (by decide) rfl
      [0, 1] (by decide)).2.1 0 (by decide)⟩

theorem c4_counter_discipline_witness :
    (getThread (reach dbC cfgC recR [.refresh oIdx]) 0).id ≤
      (reach dbC cfgC recR [.refresh oIdx]).threadCounter ∧
    (getKnot (reach dbC cfgC recR [.refresh oIdx]) 0).id <
      ((reach dbC cfgC recR [.refresh oIdx]).knotCounter : Int) :=
  ⟨(c4_counter_discipline dbC cfgC recR [.refresh oIdx]).2.1 0 (by decide),
   (c4_counter_discipline dbC cfgC recR [.refresh oIdx]).2.2.1 0 (by decide)⟩

end Ariadne
